import Mathlib

/-
Verification of the memory-hierarchy simulator (virtual_memory.py).

The four Python classes PhysicalMemory, SetAssocCache, VirtualMemory and
FullyAssocTLB are embedded shallowly as Lean structures, and each method is a
function mapping the receiver's state to a result:

  * every `printer(...)` call becomes one `Ev` trace event in the result;
  * every Python `assert`, `IndexError` (deque indexing), `ValueError`
    (deque.remove of an absent element) and `KeyError` (dict/set lookup)
    becomes an `Err`; results are in `Res σ α`, where an error carries the
    state at the moment the exception is raised (Python exceptions leave the
    mutations already performed in place);
  * Python `dict` (insertion ordered, unique keys) is modelled as an
    association list; Python `set` is modelled as a duplicate-free list where
    `set.pop()` (an arbitrary element in CPython) deterministically takes the
    head and `set.add` appends; `collections.deque` is a list with
    `deque.remove` deleting the first occurrence;
  * `math.ceil(a / b)` on the exact integer sizes used here is Nat ceiling
    division `(a + b - 1) / b`;
  * `random.sample(list(frame_set), k)` in `randomize_page_table` is the only
    nondeterminism in the program; the sampled list is passed explicitly as an
    argument (hypotheses on it state exactly what sampling guarantees:
    distinct elements drawn from the free-frame set).
-/

/-! ## Generic list helpers -/

/-- Replace the element at position `n` by `f` of it (out-of-range: unchanged);
models in-place mutation of one element of a Python list. -/
def modN (l : List α) (n : Nat) (f : α → α) : List α :=
  match l, n with
  | [], _ => []
  | a :: l, 0 => f a :: l
  | a :: l, n + 1 => a :: modN l n f

@[simp] theorem modN_nil (n : Nat) (f : α → α) : modN [] n f = [] := rfl

@[simp] theorem modN_cons_zero (a : α) (l : List α) (f : α → α) :
    modN (a :: l) 0 f = f a :: l := rfl

@[simp] theorem modN_cons_succ (a : α) (l : List α) (n : Nat) (f : α → α) :
    modN (a :: l) (n + 1) f = a :: modN l n f := rfl

@[simp] theorem modN_length (l : List α) (n : Nat) (f : α → α) :
    (modN l n f).length = l.length := by
  induction l generalizing n with
  | nil => rfl
  | cons a l ih => cases n with
    | zero => rfl
    | succ n => simp [ih]

theorem getD_modN_eq (l : List α) (n : Nat) (f : α → α) (d : α) (h : n < l.length) :
    (modN l n f).getD n d = f (l.getD n d) := by
  induction l generalizing n with
  | nil => simp at h
  | cons a l ih => cases n with
    | zero => rfl
    | succ n =>
      simp only [modN_cons_succ, List.getD_cons_succ]
      exact ih n (by simpa using h)

theorem getD_modN_ne (l : List α) (n m : Nat) (f : α → α) (d : α) (h : n ≠ m) :
    (modN l n f).getD m d = l.getD m d := by
  induction l generalizing n m with
  | nil => rfl
  | cons a l ih => cases n with
    | zero => cases m with
      | zero => exact absurd rfl h
      | succ m => rfl
    | succ n => cases m with
      | zero => rfl
      | succ m =>
        simp only [modN_cons_succ, List.getD_cons_succ]
        exact ih n m (by omega)

theorem getD_modN_oob (l : List α) (n : Nat) (f : α → α) (h : l.length ≤ n) :
    modN l n f = l := by
  induction l generalizing n with
  | nil => rfl
  | cons a l ih => cases n with
    | zero => simp at h
    | succ n => simp only [modN_cons_succ]; rw [ih n (by simpa using h)]

/-- Python `range(start, stop, step)` for nonnegative arguments and positive step. -/
def pyRange (start stop step : Nat) : List Nat :=
  List.range' start ((stop - start + step - 1) / step) step

/-- Helper for `firstIdx?`, carrying the index of the current element. -/
def firstIdxFrom (p : α → Bool) : Nat → List α → Option Nat
  | _, [] => none
  | i, a :: l => if p a then some i else firstIdxFrom p (i + 1) l

/-- Index of the first element satisfying `p`: Python's
`next((i for i, x in enumerate(l) if p(x)), None)` and, equally, the way scans
`next((way for way in range(n) if p(l[way])), None)`. -/
def firstIdx? (p : α → Bool) (l : List α) : Option Nat := firstIdxFrom p 0 l

theorem firstIdxFrom_shift (p : α → Bool) (l : List α) (i : Nat) :
    firstIdxFrom p i l = (firstIdxFrom p 0 l).map (fun k => k + i) := by
  induction l generalizing i with
  | nil => rfl
  | cons a l ih =>
    simp only [firstIdxFrom]
    by_cases h : p a
    · simp [h]
    · simp only [h, if_false, Bool.false_eq_true]
      rw [ih (i + 1), ih 1, Option.map_map]
      cases firstIdxFrom p 0 l <;> simp [Nat.add_assoc, Nat.add_comm 1 i]

@[simp] theorem firstIdx?_nil (p : α → Bool) : firstIdx? p [] = none := rfl

theorem firstIdx?_cons (p : α → Bool) (a : α) (l : List α) :
    firstIdx? p (a :: l) = if p a then some 0 else (firstIdx? p l).map (fun k => k + 1) := by
  simp only [firstIdx?, firstIdxFrom]
  by_cases h : p a
  · simp [h]
  · simp only [h, if_false, Bool.false_eq_true]
    exact firstIdxFrom_shift p l 1

theorem firstIdx?_some_lt (p : α → Bool) (l : List α) (i : Nat)
    (h : firstIdx? p l = some i) : i < l.length := by
  induction l generalizing i with
  | nil => simp at h
  | cons a l ih =>
    rw [firstIdx?_cons] at h
    by_cases hp : p a
    · simp only [hp, if_true, Option.some.injEq] at h
      simp [List.length_cons]; omega
    · simp only [hp, if_false, Bool.false_eq_true] at h
      cases hfi : firstIdx? p l with
      | none => rw [hfi] at h; simp at h
      | some j =>
        rw [hfi] at h; simp at h
        have := ih j hfi
        simp [List.length_cons]; omega

theorem firstIdx?_some_pred (p : α → Bool) (l : List α) (i : Nat) (d : α)
    (h : firstIdx? p l = some i) : p (l.getD i d) = true := by
  induction l generalizing i with
  | nil => simp at h
  | cons a l ih =>
    rw [firstIdx?_cons] at h
    by_cases hp : p a
    · simp only [hp, if_true] at h
      cases h; simpa using hp
    · simp only [hp, if_false, Bool.false_eq_true] at h
      cases hfi : firstIdx? p l with
      | none => rw [hfi] at h; simp at h
      | some j =>
        rw [hfi] at h; simp at h
        subst h
        simpa using ih j hfi

theorem firstIdx?_some_min (p : α → Bool) (l : List α) (i : Nat) (d : α)
    (h : firstIdx? p l = some i) : ∀ j < i, p (l.getD j d) = false := by
  induction l generalizing i with
  | nil => simp at h
  | cons a l ih =>
    rw [firstIdx?_cons] at h
    by_cases hp : p a
    · simp only [hp, if_true] at h; cases h; omega
    · simp only [hp, if_false, Bool.false_eq_true] at h
      cases hfi : firstIdx? p l with
      | none => rw [hfi] at h; simp at h
      | some k =>
        rw [hfi] at h; simp at h
        subst h
        intro j hj
        cases j with
        | zero => simpa using hp
        | succ j =>
          simp only [List.getD_cons_succ]
          exact ih k hfi j (by omega)

theorem firstIdx?_none (p : α → Bool) (l : List α)
    (h : firstIdx? p l = none) : ∀ x ∈ l, p x = false := by
  induction l with
  | nil => simp
  | cons a l ih =>
    rw [firstIdx?_cons] at h
    by_cases hp : p a
    · simp [hp] at h
    · simp only [hp, if_false, Bool.false_eq_true] at h
      have h' : firstIdx? p l = none := by
        cases hfi : firstIdx? p l with
        | none => rfl
        | some j => rw [hfi] at h; simp at h
      intro x hx
      rw [List.mem_cons] at hx
      rcases hx with rfl | hx
      · simpa using hp
      · exact ih h' x hx

/-! ## Trace events and errors

Each constructor of `Ev` stands for one `printer(...)` call site of the source;
the original message text is given in the comment. Numeric payloads are the
values interpolated into the message. -/

inductive Ev where
  | physReadBlock (block : Nat)      -- "读物理内存块 {addr // block_size:#x}"
  | physWriteBlock (block : Nat)     -- "写物理内存块 {addr // block_size:#x}"
  | cacheSetFull                     -- "Cache 组已满，需要调出"
  | cacheLoadBlock                   -- "从内存读取一个块"
  | cacheWriteBack (block : Nat)     -- "cache 块 {block:#x} 为脏块，需要写回"
  | cacheNoWriteBack (block : Nat)   -- "cache 块 {block:#x} 非脏块，无需写回"
  | cacheHit                         -- "cache 命中，读取 cache 块"
  | cacheMiss                        -- "cache 不命中，需要调入"
  | vmMainFull                       -- "主存已满，需要写回一个页"
  | vmLoadPage (page : Nat)          -- "将虚页 {page:#x} 装入主存"
  | vmInvalidatePageCache            -- "将虚页 {page:#x} 所对应的实页的所有 cache 全部作废" (literal text: the source lacks the f-prefix)
  | vmWriteBackToSecondary (page : Nat) -- "向辅存写回虚页 {page:#x}"
  | vmPageResident                   -- "虚页在主存中"
  | vmPageFault                      -- "缺页，从辅存中装入"
  | tlbFull                          -- "TLB 已满，需要换出一行"
  | tlbForceInvalidate               -- "虚拟内存发生写回，将 TLB 中的对应行无效化"
  | tlbLoadLine (page : Nat)         -- "将虚页 {page:#x} 的页表行读取到 TLB"
  | tlbDirtyPropagate                -- "TLB 脏位被修改，需要写回页表"
  | tlbInvalidateLine (virt : Nat)   -- "令虚页 {...:#x} 在 TLB 中的对应行失效"
  | tlbHit                           -- "虚页在 TLB 中，直接访问内存"
  | tlbMiss                          -- "虚页不在 TLB 中，需要查页表，并将页表行存入 TLB"
  deriving DecidableEq, Repr

/-- One constructor per distinct Python `assert` message (original text in comment). -/
inductive AssertMsg where
  | pmSizeMultiple        -- "内存大小必须是块大小的整数倍"
  | pmAddrRange           -- "物理内存地址不可越界"
  | cacheSizeMultiple     -- "cache 大小必须是相联度与块大小的乘积的整数倍"
  | tagRange              -- "标记不可越界"
  | cacheIdxRange         -- "块号不可越界"
  | cacheSetRange         -- "组号不可越界"
  | cacheWayRange         -- "组内块号不可越界"
  | evictInvalid          -- "只有当 cache 块有效时才能调出"
  | vmSizeMultiple        -- "虚拟内存空间大小必须是页面大小的整数倍"
  | usageRange            -- "占用率必须在 [0, 1] 范围内"
  | pageRange             -- "虚页号不可越界"
  | pageAlreadyResident   -- "只有当虚页未装入时才能装入"
  | pageNotResident       -- "只有当虚页已装入时才能写回"
  | vaddrRange            -- "虚地址不可越界"
  | tlbIdxRange           -- "行号不可越界"
  deriving DecidableEq, Repr

inductive Err where
  | assertFail (msg : AssertMsg)  -- Python AssertionError
  | indexError                    -- deque indexing on an empty deque
  | valueError                    -- deque.remove of an absent element
  | keyError                      -- dict/set lookup or removal of an absent key
  deriving DecidableEq, Repr

/-- Result of a (possibly state-mutating) operation: `ok` carries the final
state, the emitted trace and a return value; `err` carries the state as
mutated up to the moment the exception was raised. -/
inductive Res (σ : Type) (α : Type) where
  | ok (s : σ) (tr : List Ev) (a : α)
  | err (s : σ) (tr : List Ev) (e : Err)
  deriving DecidableEq, Repr

def Res.stateOf : Res σ α → σ
  | .ok s _ _ => s
  | .err s _ _ => s

def Res.traceOf : Res σ α → List Ev
  | .ok _ tr _ => tr
  | .err _ tr _ => tr

def Res.isOk : Res σ α → Bool
  | .ok _ _ _ => true
  | .err _ _ _ => false

/-! ## PhysicalMemory -/

structure PhysicalMemory where
  size : Nat
  block_size : Nat
  deriving DecidableEq, Repr

/-- Python `PhysicalMemory.__init__` (its `assert` made explicit). -/
def PhysicalMemory.build (size block_size : Nat) : Except Err PhysicalMemory :=
  if size % block_size == 0 then
    .ok { size := size, block_size := block_size }
  else .error (.assertFail .pmSizeMultiple)

/-- Python `PhysicalMemory.read`: stateless, emits one trace event. Addresses
are `Nat`, so the `addr >= 0` half of the assert is implicit. -/
def PhysicalMemory.read (pm : PhysicalMemory) (addr : Nat) : Except Err (List Ev) :=
  if addr < pm.size then .ok [.physReadBlock (addr / pm.block_size)]
  else .error (.assertFail .pmAddrRange)

/-- Python `PhysicalMemory.write`. -/
def PhysicalMemory.write (pm : PhysicalMemory) (addr : Nat) : Except Err (List Ev) :=
  if addr < pm.size then .ok [.physWriteBlock (addr / pm.block_size)]
  else .error (.assertFail .pmAddrRange)

/-! ## SetAssocCache -/

/-- Python `SetAssocCache.Line`. -/
structure SetAssocCache.Line where
  tag : Nat := 0
  valid : Bool := false
  dirty : Bool := false
  timer : Nat := 0
  deriving DecidableEq, Repr, Inhabited

structure SetAssocCache where
  physical : PhysicalMemory
  size : Nat
  associativity : Nat
  blockSize : Nat
  data : List (List SetAssocCache.Line)
  deriving DecidableEq, Repr

/-- Python `SetAssocCache.__init__`. -/
def SetAssocCache.build (physical : PhysicalMemory) (size associativity : Nat) :
    Except Err SetAssocCache :=
  if size % (associativity * physical.block_size) == 0 then
    .ok { physical := physical, size := size, associativity := associativity,
          blockSize := physical.block_size,
          data := List.replicate (size / (associativity * physical.block_size))
                    (List.replicate associativity {}) }
  else .error (.assertFail .cacheSizeMultiple)

/-- transp_size in `_get_addr_info`. -/
def SetAssocCache.transpSize (c : SetAssocCache) : Nat := c.size / c.associativity

/-- tag component of `_get_addr_info`. -/
def SetAssocCache.tagOf (c : SetAssocCache) (addr : Nat) : Nat := addr / c.transpSize

/-- idx component of `_get_addr_info`. -/
def SetAssocCache.idxOf (c : SetAssocCache) (addr : Nat) : Nat :=
  (addr % c.transpSize) / c.blockSize

/-- block_addr component of `_get_addr_info`. -/
def SetAssocCache.offOf (c : SetAssocCache) (addr : Nat) : Nat :=
  addr % c.transpSize % c.blockSize

/-- Python `SetAssocCache._get_addr_info`. -/
def SetAssocCache.getAddrInfo (c : SetAssocCache) (addr : Nat) : Nat × Nat × Nat :=
  (c.tagOf addr, c.idxOf addr, c.offOf addr)

/-- Python `SetAssocCache._get_addr`. -/
def SetAssocCache.getAddr (c : SetAssocCache) (tag idx block_addr : Nat) : Nat :=
  tag * (c.size / c.associativity) + idx * c.blockSize + block_addr

/-- Line at set `i`, way `w` (the Python code only indexes in range). -/
def SetAssocCache.lineAt (c : SetAssocCache) (i w : Nat) : SetAssocCache.Line :=
  (c.data.getD i []).getD w default

/-- Replace line (i, w) by `f` of it: in-place mutation of `self.data[i][w]`. -/
def SetAssocCache.modLine (c : SetAssocCache) (i w : Nat) (f : Line → Line) :
    SetAssocCache :=
  { c with data := modN c.data i (fun s => modN s w f) }

/-- Apply `f` to the whole set `i`. -/
def SetAssocCache.modSet (c : SetAssocCache) (i : Nat) (f : List Line → List Line) :
    SetAssocCache :=
  { c with data := modN c.data i f }

/-- First index with the maximal timer, continuing a scan: mirrors CPython
`max(range(n), key=...)`, which keeps the first element attaining the maximum
(replacement only on strictly greater key). -/
def SetAssocCache.argmaxFrom (best bestT i : Nat) : List SetAssocCache.Line → Nat
  | [] => best
  | l :: ls =>
    if l.timer > bestT then SetAssocCache.argmaxFrom i l.timer (i + 1) ls
    else SetAssocCache.argmaxFrom best bestT (i + 1) ls

/-- Python `max(range(self.associativity), key=lambda way: self.data[idx][way].timer)`. -/
def SetAssocCache.argmaxTimer : List SetAssocCache.Line → Nat
  | [] => 0
  | l :: ls => SetAssocCache.argmaxFrom 0 l.timer 1 ls

/-- Python `SetAssocCache._swap_out`. -/
def SetAssocCache.swap_out (c : SetAssocCache) (idx way : Nat) : Res SetAssocCache Unit :=
  if idx < c.data.length then
    if way < c.associativity then
      let block := idx * c.associativity + way
      let line := c.lineAt idx way
      if line.valid then
        if line.dirty then
          match c.physical.write (c.getAddr line.tag idx 0) with
          | .error e => .err c [.cacheWriteBack block] e
          | .ok trP =>
            .ok (c.modLine idx way (fun l => { l with valid := false }))
              ([.cacheWriteBack block] ++ trP) ()
        else
          .ok (c.modLine idx way (fun l => { l with valid := false }))
            [.cacheNoWriteBack block] ()
      else .err c [] (.assertFail .evictInvalid)
    else .err c [] (.assertFail .cacheWayRange)
  else .err c [] (.assertFail .cacheSetRange)

/-- Tail of `_swap_in` after a destination way has been chosen (source lines
127-133): read the block from physical memory, then fill the line. -/
def SetAssocCache.swap_in_fill (c : SetAssocCache) (tag idx way : Nat) (tr0 : List Ev) :
    Res SetAssocCache Nat :=
  match c.physical.read (c.getAddr tag idx 0) with
  | .error e => .err c tr0 e
  | .ok trP =>
    .ok (c.modLine idx way (fun l => { l with tag := tag, valid := true, dirty := false }))
      (tr0 ++ trP ++ [.cacheLoadBlock]) way

/-- Python `SetAssocCache._swap_in`. The tag bound `math.ceil(physical.size /
size)` (true division then ceil) is Nat ceiling division, exact for the integer
sizes involved. -/
def SetAssocCache.swap_in (c : SetAssocCache) (tag idx : Nat) : Res SetAssocCache Nat :=
  if tag < (c.physical.size + c.size - 1) / c.size then
    if idx < c.data.length then
      match firstIdx? (fun l => !l.valid) (c.data.getD idx []) with
      | some way => c.swap_in_fill tag idx way []
      | none =>
        let way := SetAssocCache.argmaxTimer (c.data.getD idx [])
        match c.swap_out idx way with
        | .ok c' tr _ => c'.swap_in_fill tag idx way ([.cacheSetFull] ++ tr)
        | .err c' tr e => .err c' ([.cacheSetFull] ++ tr) e
    else .err c [] (.assertFail .cacheIdxRange)
  else .err c [] (.assertFail .tagRange)

/-- LRU counter update closing `read` (source lines 160-161): `line.timer = 0`
followed by `for line in self.data[idx]: line.timer += 1`. The loop increments
every line of the set, including the line just reset (which therefore ends at
timer 1). -/
def SetAssocCache.touch (c : SetAssocCache) (idx way : Nat) : SetAssocCache :=
  (c.modLine idx way (fun l => { l with timer := 0 })).modSet idx
    (fun s => s.map (fun l => { l with timer := l.timer + 1 }))

/-- LRU counter update closing `write` (source lines 177-179): `line.dirty =
True; line.timer = 0` then the same increment loop. -/
def SetAssocCache.touchW (c : SetAssocCache) (idx way : Nat) : SetAssocCache :=
  (c.modLine idx way (fun l => { l with dirty := true, timer := 0 })).modSet idx
    (fun s => s.map (fun l => { l with timer := l.timer + 1 }))

/-- Python `SetAssocCache.read`. -/
def SetAssocCache.read (c : SetAssocCache) (addr : Nat) : Res SetAssocCache Unit :=
  if addr < c.physical.size then
    let tag := c.tagOf addr
    let idx := c.idxOf addr
    match firstIdx? (fun l => l.valid && l.tag == tag) (c.data.getD idx []) with
    | some way => .ok (c.touch idx way) [.cacheHit] ()
    | none =>
      match c.swap_in tag idx with
      | .ok c' tr way => .ok (c'.touch idx way) ([.cacheMiss] ++ tr) ()
      | .err c' tr e => .err c' ([.cacheMiss] ++ tr) e
  else .err c [] (.assertFail .pmAddrRange)

/-- Python `SetAssocCache.write` (write-back, write-allocate). -/
def SetAssocCache.write (c : SetAssocCache) (addr : Nat) : Res SetAssocCache Unit :=
  if addr < c.physical.size then
    let tag := c.tagOf addr
    let idx := c.idxOf addr
    match firstIdx? (fun l => l.valid && l.tag == tag) (c.data.getD idx []) with
    | some way => .ok (c.touchW idx way) [.cacheHit] ()
    | none =>
      match c.swap_in tag idx with
      | .ok c' tr way => .ok (c'.touchW idx way) ([.cacheMiss] ++ tr) ()
      | .err c' tr e => .err c' ([.cacheMiss] ++ tr) e
  else .err c [] (.assertFail .pmAddrRange)

/-- Loop body of `SetAssocCache.invalidate` for one block-aligned address. The
way scan `next((way for way in range(self.associativity) if ...), None)` is the
same first-index search (set lengths equal the associativity). -/
def SetAssocCache.invalStep (c : SetAssocCache) (addr : Nat) : Res SetAssocCache Unit :=
  let tag := c.tagOf addr
  let idx := c.idxOf addr
  match firstIdx? (fun l => l.valid && l.tag == tag) (c.data.getD idx []) with
  | some way => c.swap_out idx way
  | none => .ok c [] ()

/-- Fold of `invalStep` over the address list of `invalidate`. -/
def SetAssocCache.invalLoop (c : SetAssocCache) : List Nat → Res SetAssocCache Unit
  | [] => .ok c [] ()
  | a :: rest =>
    match c.invalStep a with
    | .ok c' tr _ =>
      match c'.invalLoop rest with
      | .ok c'' tr' _ => .ok c'' (tr ++ tr') ()
      | .err c'' tr' e => .err c'' (tr ++ tr') e
    | .err c' tr e => .err c' tr e

/-- Python `SetAssocCache.invalidate`. -/
def SetAssocCache.invalidate (c : SetAssocCache) (begin_ end_ : Nat) :
    Res SetAssocCache Unit :=
  c.invalLoop (pyRange (begin_ - begin_ % c.blockSize) end_ c.blockSize)

/-! ## VirtualMemory -/

/-- Python `VirtualMemory.Page` (a page-table row; no valid bit — absence from
the dict means not resident). -/
structure VirtualMemory.Page where
  physical : Nat := 0
  dirty : Bool := false
  deriving DecidableEq, Repr, Inhabited

/-- Lookup in the dict-as-association-list page table (first matching key, as
for `dict` access; keys are unique). -/
def ptLookup : List (Nat × VirtualMemory.Page) → Nat → Option VirtualMemory.Page
  | [], _ => none
  | p :: t, k => if p.1 == k then some p.2 else ptLookup t k

/-- In-place mutation of the entry for key `k` (dict keys are unique). -/
def ptUpdate (t : List (Nat × VirtualMemory.Page)) (k : Nat)
    (f : VirtualMemory.Page → VirtualMemory.Page) : List (Nat × VirtualMemory.Page) :=
  t.map (fun p => if p.1 == k then (p.1, f p.2) else p)

/-- Python `del self.page_table[k]`. -/
def ptRemove (t : List (Nat × VirtualMemory.Page)) (k : Nat) :
    List (Nat × VirtualMemory.Page) :=
  t.filter (fun p => p.1 != k)

/-- Python `deque.remove`: delete the first occurrence, ValueError if absent. -/
def dequeRemove (l : List Nat) (x : Nat) : Except Err (List Nat) :=
  if x ∈ l then .ok (l.erase x) else .error .valueError

structure VirtualMemory where
  main_mem : SetAssocCache
  size : Nat
  page_size : Nat
  page_table : List (Nat × VirtualMemory.Page)
  frame_set : List Nat
  lru_queue : List Nat
  deriving DecidableEq, Repr

/-- Python `VirtualMemory.__init__`; the frame set `{i for i in range(...)}`
starts as the full frame range. -/
def VirtualMemory.build (main_mem : SetAssocCache) (size page_size : Nat) :
    Except Err VirtualMemory :=
  if size % page_size == 0 then
    .ok { main_mem := main_mem, size := size, page_size := page_size,
          page_table := [], frame_set := List.range (main_mem.physical.size / page_size),
          lru_queue := [] }
  else .error (.assertFail .vmSizeMultiple)

def VirtualMemory.numPages (vm : VirtualMemory) : Nat := vm.size / vm.page_size

def VirtualMemory.numFrames (vm : VirtualMemory) : Nat :=
  vm.main_mem.physical.size / vm.page_size

/-- Python `VirtualMemory._swap_out`. Order of effects matches the source:
cache invalidation over the frame range, the secondary-storage write-back
message iff dirty, `frame_set.add`, `lru_queue.remove` (can raise ValueError
with the earlier mutations already applied), then `del page_table[page]`. -/
def VirtualMemory.swap_out (vm : VirtualMemory) (page : Nat) : Res VirtualMemory Unit :=
  if page < vm.numPages then
    match ptLookup vm.page_table page with
    | none => .err vm [] (.assertFail .pageNotResident)
    | some line =>
      match vm.main_mem.invalidate (line.physical * vm.page_size)
              ((line.physical + 1) * vm.page_size) with
      | .err c' tr e => .err { vm with main_mem := c' } ([.vmInvalidatePageCache] ++ tr) e
      | .ok c' tr _ =>
        let tr2 := if line.dirty then [Ev.vmWriteBackToSecondary page] else []
        let vm1 := { vm with main_mem := c',
                             frame_set := if line.physical ∈ vm.frame_set then vm.frame_set
                                          else vm.frame_set ++ [line.physical] }
        match dequeRemove vm.lru_queue page with
        | .error e => .err vm1 ([.vmInvalidatePageCache] ++ tr ++ tr2) e
        | .ok q =>
          .ok { vm1 with lru_queue := q, page_table := ptRemove vm.page_table page }
            ([.vmInvalidatePageCache] ++ tr ++ tr2) ()
  else .err vm [] (.assertFail .pageRange)

/-- Tail of `VirtualMemory._swap_in` (source lines 270-273): `line.physical =
self.frame_set.pop()` (modelled as taking the head of the free list; CPython
pops an arbitrary element), `lru_queue.append(page)`, the trace message, and
the return of the swapped page. -/
def VirtualMemory.swap_in_fill (vm : VirtualMemory) (page : Nat) (swapped : Option Nat)
    (tr0 : List Ev) : Res VirtualMemory (Option Nat) :=
  match vm.frame_set with
  | [] => .err vm tr0 .keyError
  | f :: rest =>
    .ok { vm with page_table := ptUpdate vm.page_table page (fun p => { p with physical := f }),
                  frame_set := rest,
                  lru_queue := vm.lru_queue ++ [page] }
      (tr0 ++ [.vmLoadPage page]) swapped

/-- Python `VirtualMemory._swap_in`. `setdefault(page, Page())` always inserts
here (the assert guarantees absence) and the following `line.dirty = False`
leaves the fresh entry unchanged, so both are the single append below. -/
def VirtualMemory.swap_in (vm : VirtualMemory) (page : Nat) : Res VirtualMemory (Option Nat) :=
  if page < vm.numPages then
    if (ptLookup vm.page_table page).isNone then
      let vm1 := { vm with page_table :=
        vm.page_table ++ [(page, ({ physical := 0, dirty := false } : VirtualMemory.Page))] }
      if vm1.frame_set.isEmpty then
        match vm1.lru_queue.head? with
        | none => .err vm1 [.vmMainFull] .indexError
        | some victim =>
          match vm1.swap_out victim with
          | .err vm2 tr e => .err vm2 ([.vmMainFull] ++ tr) e
          | .ok vm2 tr _ => vm2.swap_in_fill page (some victim) ([.vmMainFull] ++ tr)
      else vm1.swap_in_fill page none []
    else .err vm [] (.assertFail .pageAlreadyResident)
  else .err vm [] (.assertFail .pageRange)

/-- Translation tail shared by `VirtualMemory.read` (source lines 303-305):
look the page up again, form the physical address and read it through the
cache. -/
def VirtualMemory.read_fin (vm : VirtualMemory) (page page_addr : Nat) (tr0 : List Ev) :
    Res VirtualMemory Unit :=
  match ptLookup vm.page_table page with
  | none => .err vm tr0 .keyError
  | some line =>
    match vm.main_mem.read (line.physical * vm.page_size + page_addr) with
    | .ok c' tr _ => .ok { vm with main_mem := c' } (tr0 ++ tr) ()
    | .err c' tr e => .err { vm with main_mem := c' } (tr0 ++ tr) e

/-- Translation tail of `VirtualMemory.write` (source lines 319-322): the
page-table dirty bit is set only after the cache write succeeded. -/
def VirtualMemory.write_fin (vm : VirtualMemory) (page page_addr : Nat) (tr0 : List Ev) :
    Res VirtualMemory Unit :=
  match ptLookup vm.page_table page with
  | none => .err vm tr0 .keyError
  | some line =>
    match vm.main_mem.write (line.physical * vm.page_size + page_addr) with
    | .ok c' tr _ =>
      .ok { vm with main_mem := c',
                    page_table := ptUpdate vm.page_table page (fun p => { p with dirty := true }) }
        (tr0 ++ tr) ()
    | .err c' tr e => .err { vm with main_mem := c' } (tr0 ++ tr) e

/-- Python `VirtualMemory.read`. -/
def VirtualMemory.read (vm : VirtualMemory) (addr : Nat) : Res VirtualMemory Unit :=
  if addr < vm.size then
    let page := addr / vm.page_size
    let page_addr := addr % vm.page_size
    if (ptLookup vm.page_table page).isSome then
      match dequeRemove vm.lru_queue page with
      | .error e => .err vm [.vmPageResident] e
      | .ok q => VirtualMemory.read_fin { vm with lru_queue := q ++ [page] } page page_addr [.vmPageResident]
    else
      match vm.swap_in page with
      | .err vm' tr e => .err vm' ([.vmPageFault] ++ tr) e
      | .ok vm' tr _ => vm'.read_fin page page_addr ([.vmPageFault] ++ tr)
  else .err vm [] (.assertFail .vaddrRange)

/-- Python `VirtualMemory.write`. -/
def VirtualMemory.write (vm : VirtualMemory) (addr : Nat) : Res VirtualMemory Unit :=
  if addr < vm.size then
    let page := addr / vm.page_size
    let page_addr := addr % vm.page_size
    if (ptLookup vm.page_table page).isSome then
      match dequeRemove vm.lru_queue page with
      | .error e => .err vm [.vmPageResident] e
      | .ok q => VirtualMemory.write_fin { vm with lru_queue := q ++ [page] } page page_addr [.vmPageResident]
    else
      match vm.swap_in page with
      | .err vm' tr e => .err vm' ([.vmPageFault] ++ tr) e
      | .ok vm' tr _ => vm'.write_fin page page_addr ([.vmPageFault] ++ tr)
  else .err vm [] (.assertFail .vaddrRange)

/-- Loop of `VirtualMemory.randomize_page_table` with an explicit page counter:
`for page, frame in enumerate(sample)`. Each step is `setdefault` (insert when
absent) followed by `line.physical = frame`, `frame_set.remove(frame)` (KeyError
if absent, with the page-table mutation already applied) and
`lru_queue.append(page)`. No trace messages are emitted. -/
def VirtualMemory.randLoop (vm : VirtualMemory) (page : Nat) :
    List Nat → Res VirtualMemory Unit
  | [] => .ok vm [] ()
  | frame :: rest =>
    let pt1 := if (ptLookup vm.page_table page).isSome
               then ptUpdate vm.page_table page (fun p => { p with physical := frame })
               else vm.page_table ++ [(page, { physical := frame, dirty := false })]
    if frame ∈ vm.frame_set then
      VirtualMemory.randLoop
        { vm with page_table := pt1, frame_set := vm.frame_set.erase frame,
                  lru_queue := vm.lru_queue ++ [page] } (page + 1) rest
    else .err { vm with page_table := pt1 } [] .keyError

/-- Python `VirtualMemory.randomize_page_table`, with the result of
`random.sample(list(self.frame_set), int(mem_usage * len(self.frame_set)))`
passed explicitly as `sample` (see the file header); the `mem_usage` float and
its range assert live entirely outside this deterministic remainder. -/
def VirtualMemory.randomize_page_table (vm : VirtualMemory) (sample : List Nat) :
    Res VirtualMemory Unit :=
  vm.randLoop 0 sample

/-! ## FullyAssocTLB -/

/-- Python `FullyAssocTLB.Line` (`dirty_dirty` is the source's name for the
dirty-pending flag). -/
structure FullyAssocTLB.Line where
  virtual : Nat := 0
  physical : Nat := 0
  valid : Bool := false
  dirty : Bool := false
  dirty_dirty : Bool := false
  deriving DecidableEq, Repr, Inhabited

structure FullyAssocTLB where
  virtual_mem : VirtualMemory
  table : List FullyAssocTLB.Line
  lru_queue : List Nat
  deriving DecidableEq, Repr

/-- Python `FullyAssocTLB.__init__` (no asserts). -/
def FullyAssocTLB.build (virtual_mem : VirtualMemory) (size : Nat) : FullyAssocTLB :=
  { virtual_mem := virtual_mem, table := List.replicate size {}, lru_queue := [] }

/-- Tail of `FullyAssocTLB._swap_out` (source lines 397-399): invalidate the
line, then `lru_queue.remove(idx)` — which raises ValueError when `idx` is not
queued (the line is already invalid at that point) — then the trace message
naming the line's virtual page. -/
def FullyAssocTLB.swap_out_fin (t : FullyAssocTLB) (idx : Nat) (tr0 : List Ev) :
    Res FullyAssocTLB Unit :=
  let t2 := { t with table := modN t.table idx (fun l => { l with valid := false }) }
  match dequeRemove t2.lru_queue idx with
  | .error e => .err t2 tr0 e
  | .ok q =>
    .ok { t2 with lru_queue := q }
      (tr0 ++ [.tlbInvalidateLine ((t2.table.getD idx default).virtual)]) ()

/-- Python `FullyAssocTLB._swap_out`. When `dirty_dirty` is set the page-table
entry's dirty bit is written first (`KeyError` if the page is not resident). -/
def FullyAssocTLB.swap_out (t : FullyAssocTLB) (idx : Nat) : Res FullyAssocTLB Unit :=
  if idx < t.table.length then
    let line := t.table.getD idx default
    if line.dirty_dirty then
      match ptLookup t.virtual_mem.page_table line.virtual with
      | none => .err t [.tlbDirtyPropagate] .keyError
      | some _ =>
        FullyAssocTLB.swap_out_fin
          { t with virtual_mem := { t.virtual_mem with
              page_table := ptUpdate t.virtual_mem.page_table line.virtual
                              (fun p => { p with dirty := true }) } }
          idx [.tlbDirtyPropagate]
    else FullyAssocTLB.swap_out_fin t idx []
  else .err t [] (.assertFail .tlbIdxRange)

/-- Tail of `FullyAssocTLB._swap_in` (source lines 378-386): populate slot
`idx` from the page-table entry. -/
def FullyAssocTLB.swap_in_fill (t : FullyAssocTLB) (idx page : Nat) (tr0 : List Ev) :
    Res FullyAssocTLB Nat :=
  match ptLookup t.virtual_mem.page_table page with
  | none => .err t tr0 .keyError
  | some src =>
    .ok { t with table := modN t.table idx (fun l =>
            { l with valid := true, dirty := src.dirty, dirty_dirty := false,
                     virtual := page, physical := src.physical }) }
      (tr0 ++ [.tlbLoadLine page]) idx

/-- Middle of `FullyAssocTLB._swap_in` (source lines 371-377): when the page is
not resident, trigger the VirtualMemory swap-in; if that evicted some page,
scan for a TLB line with that virtual page number (the scan does not test
`line.valid`) and force it out. -/
def FullyAssocTLB.swap_in_vm (t : FullyAssocTLB) (idx page : Nat) (tr0 : List Ev) :
    Res FullyAssocTLB Nat :=
  if (ptLookup t.virtual_mem.page_table page).isNone then
    match t.virtual_mem.swap_in page with
    | .err vm' tr e => .err { t with virtual_mem := vm' } (tr0 ++ tr) e
    | .ok vm' tr swapped =>
      let t1 := { t with virtual_mem := vm' }
      match swapped with
      | none => t1.swap_in_fill idx page (tr0 ++ tr)
      | some sp =>
        match firstIdx? (fun l => l.virtual == sp) t1.table with
        | none => t1.swap_in_fill idx page (tr0 ++ tr ++ [.tlbForceInvalidate])
        | some sidx =>
          match t1.swap_out sidx with
          | .err t2 tr2 e => .err t2 (tr0 ++ tr ++ [.tlbForceInvalidate] ++ tr2) e
          | .ok t2 tr2 _ => t2.swap_in_fill idx page (tr0 ++ tr ++ [.tlbForceInvalidate] ++ tr2)
  else t.swap_in_fill idx page tr0

/-- Python `FullyAssocTLB._swap_in`. Note the source never appends to
`lru_queue`; with every slot valid, `idx = self.lru_queue[0]` is evaluated on
whatever the queue holds (an IndexError when it is empty). -/
def FullyAssocTLB.swap_in (t : FullyAssocTLB) (page : Nat) : Res FullyAssocTLB Nat :=
  if page < t.virtual_mem.numPages then
    match firstIdx? (fun l => !l.valid) t.table with
    | some idx => t.swap_in_vm idx page []
    | none =>
      match t.lru_queue.head? with
      | none => .err t [.tlbFull] .indexError
      | some idx =>
        match t.swap_out idx with
        | .err t' tr e => .err t' ([.tlbFull] ++ tr) e
        | .ok t' tr _ => t'.swap_in_vm idx page ([.tlbFull] ++ tr)
  else .err t [] (.assertFail .pageRange)

/-- Python `FullyAssocTLB.read`. -/
def FullyAssocTLB.read (t : FullyAssocTLB) (addr : Nat) : Res FullyAssocTLB Unit :=
  if addr < t.virtual_mem.size then
    let page := addr / t.virtual_mem.page_size
    let page_addr := addr % t.virtual_mem.page_size
    match firstIdx? (fun l => l.valid && l.virtual == page) t.table with
    | some i =>
      let line := t.table.getD i default
      match t.virtual_mem.main_mem.read (line.physical * t.virtual_mem.page_size + page_addr) with
      | .ok c' tr _ =>
        .ok { t with virtual_mem := { t.virtual_mem with main_mem := c' } } ([.tlbHit] ++ tr) ()
      | .err c' tr e =>
        .err { t with virtual_mem := { t.virtual_mem with main_mem := c' } } ([.tlbHit] ++ tr) e
    | none =>
      match t.virtual_mem.read addr with
      | .err vm' tr e => .err { t with virtual_mem := vm' } ([.tlbMiss] ++ tr) e
      | .ok vm' tr _ =>
        match FullyAssocTLB.swap_in { t with virtual_mem := vm' } page with
        | .ok t' tr2 _ => .ok t' ([.tlbMiss] ++ tr ++ tr2) ()
        | .err t' tr2 e => .err t' ([.tlbMiss] ++ tr ++ tr2) e
  else .err t [] (.assertFail .vaddrRange)

/-- Python `FullyAssocTLB.write`. On a hit, the cache write happens first; the
line's flags change only when neither `dirty` nor `dirty_dirty` was set. -/
def FullyAssocTLB.write (t : FullyAssocTLB) (addr : Nat) : Res FullyAssocTLB Unit :=
  if addr < t.virtual_mem.size then
    let page := addr / t.virtual_mem.page_size
    let page_addr := addr % t.virtual_mem.page_size
    match firstIdx? (fun l => l.valid && l.virtual == page) t.table with
    | some i =>
      let line := t.table.getD i default
      match t.virtual_mem.main_mem.write (line.physical * t.virtual_mem.page_size + page_addr) with
      | .ok c' tr _ =>
        let t1 := { t with virtual_mem := { t.virtual_mem with main_mem := c' } }
        let t2 := if !(line.dirty || line.dirty_dirty)
                  then { t1 with table := modN t1.table i (fun l =>
                          { l with dirty := true, dirty_dirty := true }) }
                  else t1
        .ok t2 ([.tlbHit] ++ tr) ()
      | .err c' tr e =>
        .err { t with virtual_mem := { t.virtual_mem with main_mem := c' } } ([.tlbHit] ++ tr) e
    | none =>
      match t.virtual_mem.write addr with
      | .err vm' tr e => .err { t with virtual_mem := vm' } ([.tlbMiss] ++ tr) e
      | .ok vm' tr _ =>
        match FullyAssocTLB.swap_in { t with virtual_mem := vm' } page with
        | .ok t' tr2 _ => .ok t' ([.tlbMiss] ++ tr ++ tr2) ()
        | .err t' tr2 e => .err t' ([.tlbMiss] ++ tr ++ tr2) e
  else .err t [] (.assertFail .vaddrRange)

/-- Error of a result, if any. -/
def Res.errOf : Res σ α → Option Err
  | .ok _ _ _ => none
  | .err _ _ e => some e

/-! ## A small concrete configuration

Physical memory of 32 bytes in 4-byte blocks, an 8-byte direct-mapped cache
(2 sets of 1 way), a 64-byte virtual space with 16-byte pages (4 virtual
pages, 2 physical frames). Used for counterexamples, failing inputs and
witnesses below. -/

def pm0 : PhysicalMemory := { size := 32, block_size := 4 }

def cache0 : SetAssocCache :=
  { physical := pm0, size := 8, associativity := 1, blockSize := 4,
    data := List.replicate 2 (List.replicate 1 {}) }

def vm0 : VirtualMemory :=
  { main_mem := cache0, size := 64, page_size := 16, page_table := [],
    frame_set := List.range 2, lru_queue := [] }

/-- TLB of capacity 4 over the small configuration. -/
def tlb4 : FullyAssocTLB := FullyAssocTLB.build vm0 4

/-- TLB of capacity 1 over the small configuration. -/
def tlb1 : FullyAssocTLB := FullyAssocTLB.build vm0 1

/-- State after `tlb4.read 0` (loads page 0 into frame 0, TLB slot 0). -/
def tA : FullyAssocTLB := (tlb4.read 0).stateOf

/-- State after a further `read 16` (loads page 1 into frame 1, TLB slot 1;
both frames now occupied). -/
def tB : FullyAssocTLB := (tA.read 16).stateOf

/-- State after a further `read 32`: a TLB miss on page 2 whose VirtualMemory
access evicts page 0 (the LRU resident) to reuse frame 0. -/
def tC : FullyAssocTLB := (tB.read 32).stateOf

/-- State after `tlb1.read 0` (the single TLB slot becomes valid). -/
def s1 : FullyAssocTLB := (tlb1.read 0).stateOf

/-- State at the IndexError raised by `s1.read 16` (all TLB slots valid, empty
TLB LRU deque). -/
def s2 : FullyAssocTLB := (s1.read 16).stateOf

/-- C1. The cross-layer TLB consistency invariant fails on the code: the read
sequence 0, 16, 32 on the small configuration completes without error, yet
afterwards TLB slot 0 is still valid for virtual page 0, page 0 is no longer
resident in the page table, and slot 0's cached frame is now owned by page 2.
On the TLB miss path `VirtualMemory.read` services the fault itself and
discards the evicted page number, and `FullyAssocTLB._swap_in` checks for an
eviction only when it triggers the swap-in itself (`page not in
self.virtual_mem.page_table` is already false), so the force-invalidation the
spec requires never runs. -/
theorem c1_completed_read_leaves_stale_tlb_line :
    (tlb4.read 0).isOk = true ∧ (tA.read 16).isOk = true ∧ (tB.read 32).isOk = true ∧
    (tC.table.getD 0 default).valid = true ∧
    (tC.table.getD 0 default).virtual = 0 ∧
    ptLookup tC.virtual_mem.page_table 0 = none ∧
    (ptLookup tC.virtual_mem.page_table 2).map (fun p => p.physical) =
      some (tC.table.getD 0 default).physical := by
  decide

/-- C2. TLB LRU order maintenance fails on the code: `FullyAssocTLB._swap_in`
never appends the chosen slot to `lru_queue`, so after the completed miss that
loads slot 0 the TLB LRU order is still empty (the slot index is not at its
tail), and the next miss with every slot valid evaluates `self.lru_queue[0]`
on the empty deque and raises IndexError instead of evicting the head. -/
theorem c2_tlb_lru_never_appended :
    (tlb1.read 0).isOk = true ∧
    (s1.table.getD 0 default).valid = true ∧
    (s1.table.getD 0 default).virtual = 0 ∧
    s1.lru_queue = [] ∧
    (∀ l ∈ s1.table, l.valid = true) ∧
    (s1.read 16).errOf = some .indexError := by
  decide

/-- C9. Atomicity on failure fails on the code: `s1.read 16` raises IndexError
(empty TLB LRU deque), but only after `VirtualMemory.read` has already made
page 1 resident (consuming the last free frame) and the cache has loaded its
block, so the state at the error differs from the state before the call. -/
theorem c9_error_raised_after_mutation :
    (s1.read 16).errOf = some .indexError ∧
    ptLookup s1.virtual_mem.page_table 1 = none ∧
    ptLookup s2.virtual_mem.page_table 1 = some { physical := 1, dirty := false } ∧
    s2.virtual_mem.frame_set = [] ∧ s1.virtual_mem.frame_set = [1] ∧
    s2.virtual_mem.main_mem ≠ s1.virtual_mem.main_mem := by
  decide

/-! ## Claim C10: frame property of TLB read hits -/

/-- C10. A `FullyAssocTLB.read` that hits (some valid line's virtual page
equals the address's page, the same first-index scan the code performs) leaves
VirtualMemory's page table, free-frame set and page LRU order, as well as the
TLB's own line array and LRU order, unchanged — whether the underlying cache
access succeeds or raises — so the only mutated state is inside the cache
layer. In particular the page LRU order is not refreshed by TLB hits, so
VirtualMemory may later evict a page recently accessed through TLB hits. -/
theorem c10_tlb_hit_touches_only_the_cache (t : FullyAssocTLB) (addr i : Nat)
    (haddr : addr < t.virtual_mem.size)
    (hhit : firstIdx? (fun l => l.valid && l.virtual == addr / t.virtual_mem.page_size)
              t.table = some i) :
    (t.read addr).stateOf.virtual_mem.page_table = t.virtual_mem.page_table ∧
    (t.read addr).stateOf.virtual_mem.frame_set = t.virtual_mem.frame_set ∧
    (t.read addr).stateOf.virtual_mem.lru_queue = t.virtual_mem.lru_queue ∧
    (t.read addr).stateOf.table = t.table ∧
    (t.read addr).stateOf.lru_queue = t.lru_queue := by
  unfold FullyAssocTLB.read
  rw [if_pos haddr]
  simp only [hhit]
  split <;> simp [Res.stateOf]

/-- Witness for C10: in the state `tB` (pages 0 and 1 resident, TLB slots 0
and 1 valid), reading address 0 is a TLB hit. -/
theorem c10_witness :
    (tB.read 0).stateOf.virtual_mem.page_table = tB.virtual_mem.page_table ∧
    (tB.read 0).stateOf.virtual_mem.frame_set = tB.virtual_mem.frame_set ∧
    (tB.read 0).stateOf.virtual_mem.lru_queue = tB.virtual_mem.lru_queue ∧
    (tB.read 0).stateOf.table = tB.table ∧
    (tB.read 0).stateOf.lru_queue = tB.lru_queue :=
  c10_tlb_hit_touches_only_the_cache tB 0 0 (by decide) (by decide)

/-! ## Claim C7: deferred dirty propagation -/

/-- C7. (a) On a TLB write hit that completes, the page table (and the rest of
VirtualMemory's state) is untouched, the TLB LRU order is untouched, and the
hit line's flags change exactly when neither `dirty` nor `dirty_dirty` was
set, in which case both become set; otherwise the whole line array is
unchanged. (b) When a TLB line is evicted (`_swap_out`), the dirty bit is
propagated into the page table — the entry for the line's virtual page gets
`dirty = True` — iff the line's `dirty_dirty` (dirty-pending) flag is set;
the resulting state is inspected through `Res.stateOf`, so this holds whether
or not the subsequent `lru_queue.remove(idx)` raises. -/
theorem swap_out_fin_keeps_vm (t : FullyAssocTLB) (idx : Nat) (tr0 : List Ev) :
    (t.swap_out_fin idx tr0).stateOf.virtual_mem = t.virtual_mem := by
  unfold FullyAssocTLB.swap_out_fin
  dsimp only
  split <;> rfl

theorem c7_deferred_dirty_propagation :
    (∀ (t : FullyAssocTLB) (addr i : Nat) (t' : FullyAssocTLB) (tr : List Ev),
      addr < t.virtual_mem.size →
      firstIdx? (fun l => l.valid && l.virtual == addr / t.virtual_mem.page_size)
        t.table = some i →
      t.write addr = .ok t' tr () →
      t'.virtual_mem.page_table = t.virtual_mem.page_table ∧
      t'.virtual_mem.frame_set = t.virtual_mem.frame_set ∧
      t'.virtual_mem.lru_queue = t.virtual_mem.lru_queue ∧
      t'.lru_queue = t.lru_queue ∧
      t'.table = (if (t.table.getD i default).dirty = false ∧
                     (t.table.getD i default).dirty_dirty = false
                  then modN t.table i (fun l => { l with dirty := true, dirty_dirty := true })
                  else t.table)) ∧
    (∀ (t : FullyAssocTLB) (idx : Nat), idx < t.table.length →
      ((t.table.getD idx default).dirty_dirty = true →
        (ptLookup t.virtual_mem.page_table (t.table.getD idx default).virtual).isSome →
        (t.swap_out idx).stateOf.virtual_mem.page_table =
          ptUpdate t.virtual_mem.page_table (t.table.getD idx default).virtual
            (fun p => { p with dirty := true })) ∧
      ((t.table.getD idx default).dirty_dirty = false →
        (t.swap_out idx).stateOf.virtual_mem.page_table = t.virtual_mem.page_table)) := by
  constructor
  · intro t addr i t' tr haddr hhit hok
    unfold FullyAssocTLB.write at hok
    rw [if_pos haddr] at hok
    simp only [hhit] at hok
    split at hok
    · rename_i c' trc u heq
      split at hok
      · rename_i hflags
        cases hok
        refine ⟨rfl, rfl, rfl, rfl, ?_⟩
        split
        · rfl
        · rename_i hcond
          revert hflags hcond
          cases (t.table.getD i default).dirty <;>
            cases (t.table.getD i default).dirty_dirty <;> simp
      · rename_i hflags
        cases hok
        refine ⟨rfl, rfl, rfl, rfl, ?_⟩
        split
        · rename_i hcond
          revert hflags hcond
          cases (t.table.getD i default).dirty <;>
            cases (t.table.getD i default).dirty_dirty <;> simp
        · rfl
    · cases hok
  · intro t idx hidx
    constructor
    · intro hdd hsome
      unfold FullyAssocTLB.swap_out
      rw [if_pos hidx]
      dsimp only
      rw [if_pos hdd]
      cases hlk : ptLookup t.virtual_mem.page_table (t.table.getD idx default).virtual with
      | none => rw [hlk] at hsome; simp at hsome
      | some pg =>
        simp only [hlk]
        rw [swap_out_fin_keeps_vm]
    · intro hdd
      unfold FullyAssocTLB.swap_out
      rw [if_pos hidx]
      dsimp only
      rw [if_neg (by rw [hdd]; simp)]
      rw [swap_out_fin_keeps_vm]

/-- State after a TLB write hit at address 0 in `tB`: slot 0 now has both
`dirty` and `dirty_dirty` set. -/
def tW : FullyAssocTLB := (tB.write 0).stateOf

/-- Witness for C7: the write-hit part applied at `tB.write 0`, the
propagate-on-eviction part applied at `tW.swap_out 0` (dirty-pending set) and
the no-propagation part at `tW.swap_out 1` (dirty-pending clear). -/
theorem c7_witness :
    ((tB.write 0).stateOf.virtual_mem.page_table = tB.virtual_mem.page_table ∧
     (tB.write 0).stateOf.virtual_mem.frame_set = tB.virtual_mem.frame_set ∧
     (tB.write 0).stateOf.virtual_mem.lru_queue = tB.virtual_mem.lru_queue ∧
     (tB.write 0).stateOf.lru_queue = tB.lru_queue ∧
     (tB.write 0).stateOf.table = (if (tB.table.getD 0 default).dirty = false ∧
          (tB.table.getD 0 default).dirty_dirty = false
        then modN tB.table 0 (fun l => { l with dirty := true, dirty_dirty := true })
        else tB.table)) ∧
    (tW.swap_out 0).stateOf.virtual_mem.page_table =
      ptUpdate tW.virtual_mem.page_table (tW.table.getD 0 default).virtual
        (fun p => { p with dirty := true }) ∧
    (tW.swap_out 1).stateOf.virtual_mem.page_table = tW.virtual_mem.page_table :=
  ⟨c7_deferred_dirty_propagation.1 tB 0 0 (tB.write 0).stateOf (tB.write 0).traceOf
      (by decide) (by decide) (by decide),
   (c7_deferred_dirty_propagation.2 tW 0 (by decide)).1 (by decide) (by decide),
   (c7_deferred_dirty_propagation.2 tW 1 (by decide)).2 (by decide)⟩

/-! ## Characterization lemmas for the cache operations -/

theorem getD_map_lt (f : α → β) (s : List α) (w : Nat) (d : α) (d' : β)
    (h : w < s.length) : (s.map f).getD w d' = f (s.getD w d) := by
  induction s generalizing w with
  | nil => simp at h
  | cons a s ih => cases w with
    | zero => rfl
    | succ w => simpa using ih w (by simpa using h)

theorem phys_read_ok (pm : PhysicalMemory) (addr : Nat) (tr : List Ev)
    (h : pm.read addr = .ok tr) :
    addr < pm.size ∧ tr = [.physReadBlock (addr / pm.block_size)] := by
  unfold PhysicalMemory.read at h
  split at h
  · exact ⟨by assumption, by cases h; rfl⟩
  · cases h

theorem phys_write_ok (pm : PhysicalMemory) (addr : Nat) (tr : List Ev)
    (h : pm.write addr = .ok tr) :
    addr < pm.size ∧ tr = [.physWriteBlock (addr / pm.block_size)] := by
  unfold PhysicalMemory.write at h
  split at h
  · exact ⟨by assumption, by cases h; rfl⟩
  · cases h

theorem modLine_data_length (c : SetAssocCache) (i w : Nat) (f : SetAssocCache.Line → SetAssocCache.Line) :
    (c.modLine i w f).data.length = c.data.length := by
  simp [SetAssocCache.modLine]

theorem modLine_set_other (c : SetAssocCache) (i w : Nat) (f : SetAssocCache.Line → SetAssocCache.Line)
    (j : Nat) (h : j ≠ i) : (c.modLine i w f).data.getD j [] = c.data.getD j [] :=
  getD_modN_ne c.data i j _ [] (fun e => h e.symm)

theorem modLine_set_len (c : SetAssocCache) (i w : Nat) (f : SetAssocCache.Line → SetAssocCache.Line)
    (j : Nat) : ((c.modLine i w f).data.getD j []).length = (c.data.getD j []).length := by
  by_cases hj : j = i
  · subst hj
    by_cases hi : j < c.data.length
    · unfold SetAssocCache.modLine
      simp only
      rw [getD_modN_eq _ _ _ _ hi, modN_length]
    · unfold SetAssocCache.modLine
      simp only
      rw [getD_modN_oob _ _ _ (Nat.le_of_not_lt hi)]
  · rw [modLine_set_other c i w f j hj]

theorem modLine_lineAt_other (c : SetAssocCache) (i w : Nat)
    (f : SetAssocCache.Line → SetAssocCache.Line) (w' : Nat) (h : w' ≠ w) :
    (c.modLine i w f).lineAt i w' = c.lineAt i w' := by
  unfold SetAssocCache.lineAt SetAssocCache.modLine
  simp only
  by_cases hi : i < c.data.length
  · rw [getD_modN_eq _ _ _ _ hi, getD_modN_ne _ _ _ _ _ (fun e => h e.symm)]
  · rw [getD_modN_oob _ _ _ (Nat.le_of_not_lt hi)]

theorem modLine_lineAt_self (c : SetAssocCache) (i w : Nat)
    (f : SetAssocCache.Line → SetAssocCache.Line) (hi : i < c.data.length)
    (hw : w < (c.data.getD i []).length) :
    (c.modLine i w f).lineAt i w = f (c.lineAt i w) := by
  unfold SetAssocCache.lineAt SetAssocCache.modLine
  simp only
  rw [getD_modN_eq _ _ _ _ hi, getD_modN_eq _ _ _ _ hw]

theorem modLine_lineAt_otherSet (c : SetAssocCache) (i w : Nat)
    (f : SetAssocCache.Line → SetAssocCache.Line) (j w' : Nat) (h : j ≠ i) :
    (c.modLine i w f).lineAt j w' = c.lineAt j w' := by
  unfold SetAssocCache.lineAt
  rw [modLine_set_other c i w f j h]

theorem touch_data_length (c : SetAssocCache) (i w : Nat) :
    (c.touch i w).data.length = c.data.length := by
  unfold SetAssocCache.touch SetAssocCache.modSet
  simp only
  rw [modN_length, modLine_data_length]

theorem touch_set_other (c : SetAssocCache) (i w j : Nat) (h : j ≠ i) :
    (c.touch i w).data.getD j [] = c.data.getD j [] := by
  unfold SetAssocCache.touch SetAssocCache.modSet
  simp only
  rw [getD_modN_ne _ _ _ _ _ (fun e => h e.symm)]
  exact modLine_set_other c i w _ j h

theorem touch_lineAt_self (c : SetAssocCache) (i w : Nat) (hi : i < c.data.length)
    (hw : w < (c.data.getD i []).length) :
    (c.touch i w).lineAt i w = { c.lineAt i w with timer := 1 } := by
  unfold SetAssocCache.touch SetAssocCache.modSet SetAssocCache.lineAt
  simp only
  rw [getD_modN_eq _ _ _ _ (by rw [modLine_data_length]; exact hi)]
  rw [getD_map_lt _ _ _ default _ (by rw [modLine_set_len]; exact hw)]
  have : (c.modLine i w fun l => { l with timer := 0 }).lineAt i w =
      { c.lineAt i w with timer := 0 } := modLine_lineAt_self c i w _ hi hw
  unfold SetAssocCache.lineAt at this
  rw [this]

theorem touch_lineAt_other (c : SetAssocCache) (i w w' : Nat) (hi : i < c.data.length)
    (hw' : w' < (c.data.getD i []).length) (h : w' ≠ w) :
    (c.touch i w).lineAt i w' = { c.lineAt i w' with timer := (c.lineAt i w').timer + 1 } := by
  unfold SetAssocCache.touch SetAssocCache.modSet SetAssocCache.lineAt
  simp only
  rw [getD_modN_eq _ _ _ _ (by rw [modLine_data_length]; exact hi)]
  rw [getD_map_lt _ _ _ default _ (by rw [modLine_set_len]; exact hw')]
  have : (c.modLine i w fun l => { l with timer := 0 }).lineAt i w' = c.lineAt i w' :=
    modLine_lineAt_other c i w _ w' h
  unfold SetAssocCache.lineAt at this
  rw [this]

theorem touchW_data_length (c : SetAssocCache) (i w : Nat) :
    (c.touchW i w).data.length = c.data.length := by
  unfold SetAssocCache.touchW SetAssocCache.modSet
  simp only
  rw [modN_length, modLine_data_length]

theorem touchW_set_other (c : SetAssocCache) (i w j : Nat) (h : j ≠ i) :
    (c.touchW i w).data.getD j [] = c.data.getD j [] := by
  unfold SetAssocCache.touchW SetAssocCache.modSet
  simp only
  rw [getD_modN_ne _ _ _ _ _ (fun e => h e.symm)]
  exact modLine_set_other c i w _ j h

theorem touchW_lineAt_self (c : SetAssocCache) (i w : Nat) (hi : i < c.data.length)
    (hw : w < (c.data.getD i []).length) :
    (c.touchW i w).lineAt i w = { c.lineAt i w with dirty := true, timer := 1 } := by
  unfold SetAssocCache.touchW SetAssocCache.modSet SetAssocCache.lineAt
  simp only
  rw [getD_modN_eq _ _ _ _ (by rw [modLine_data_length]; exact hi)]
  rw [getD_map_lt _ _ _ default _ (by rw [modLine_set_len]; exact hw)]
  have : (c.modLine i w fun l => { l with dirty := true, timer := 0 }).lineAt i w =
      { c.lineAt i w with dirty := true, timer := 0 } := modLine_lineAt_self c i w _ hi hw
  unfold SetAssocCache.lineAt at this
  rw [this]

theorem touchW_lineAt_other (c : SetAssocCache) (i w w' : Nat) (hi : i < c.data.length)
    (hw' : w' < (c.data.getD i []).length) (h : w' ≠ w) :
    (c.touchW i w).lineAt i w' = { c.lineAt i w' with timer := (c.lineAt i w').timer + 1 } := by
  unfold SetAssocCache.touchW SetAssocCache.modSet SetAssocCache.lineAt
  simp only
  rw [getD_modN_eq _ _ _ _ (by rw [modLine_data_length]; exact hi)]
  rw [getD_map_lt _ _ _ default _ (by rw [modLine_set_len]; exact hw')]
  have : (c.modLine i w fun l => { l with dirty := true, timer := 0 }).lineAt i w' = c.lineAt i w' :=
    modLine_lineAt_other c i w _ w' h
  unfold SetAssocCache.lineAt at this
  rw [this]

theorem swap_out_ok_char (c c' : SetAssocCache) (idx way : Nat) (tr : List Ev)
    (h : c.swap_out idx way = .ok c' tr ()) :
    idx < c.data.length ∧ way < c.associativity ∧ (c.lineAt idx way).valid = true ∧
    c' = c.modLine idx way (fun l => { l with valid := false }) ∧
    tr = (if (c.lineAt idx way).dirty then
            [Ev.cacheWriteBack (idx * c.associativity + way),
             Ev.physWriteBlock (c.getAddr (c.lineAt idx way).tag idx 0 / c.physical.block_size)]
          else [Ev.cacheNoWriteBack (idx * c.associativity + way)]) := by
  unfold SetAssocCache.swap_out at h
  split at h
  case isFalse => cases h
  case isTrue hidx =>
    split at h
    case isFalse => cases h
    case isTrue hway =>
      dsimp only at h
      split at h
      case isFalse => cases h
      case isTrue hvalid =>
        split at h
        case isTrue hdirty =>
          split at h
          case h_1 => cases h
          case h_2 trP heq =>
            obtain ⟨_, htr⟩ := phys_write_ok _ _ _ heq
            cases h
            exact ⟨hidx, hway, hvalid, rfl, by rw [if_pos hdirty, htr]; rfl⟩
        case isFalse hdirty =>
          cases h
          exact ⟨hidx, hway, hvalid, rfl, by rw [if_neg hdirty]⟩

theorem argmaxFrom_lt (ls : List SetAssocCache.Line) (best bestT i : Nat)
    (hb : best < i) : SetAssocCache.argmaxFrom best bestT i ls < i + ls.length := by
  induction ls generalizing best bestT i with
  | nil => simpa using hb
  | cons l ls ih =>
    unfold SetAssocCache.argmaxFrom
    split
    · have := ih i l.timer (i + 1) (Nat.lt_succ_self i)
      simp only [List.length_cons]; omega
    · have := ih best bestT (i + 1) (by omega)
      simp only [List.length_cons]; omega

theorem argmaxTimer_lt (ls : List SetAssocCache.Line) (h : ls ≠ []) :
    SetAssocCache.argmaxTimer ls < ls.length := by
  cases ls with
  | nil => exact absurd rfl h
  | cons l ls =>
    unfold SetAssocCache.argmaxTimer
    have := argmaxFrom_lt ls 0 l.timer 1 Nat.one_pos
    simp only [List.length_cons]; omega

theorem swap_in_fill_ok_char (c c' : SetAssocCache) (tag idx way way' : Nat)
    (tr0 tr : List Ev) (h : c.swap_in_fill tag idx way tr0 = .ok c' tr way') :
    way' = way ∧
    c' = c.modLine idx way (fun l => { l with tag := tag, valid := true, dirty := false }) ∧
    tr = tr0 ++ [.physReadBlock (c.getAddr tag idx 0 / c.physical.block_size), .cacheLoadBlock] ∧
    c.getAddr tag idx 0 < c.physical.size := by
  unfold SetAssocCache.swap_in_fill at h
  split at h
  case h_1 => cases h
  case h_2 trP heq =>
    obtain ⟨hlt, htr⟩ := phys_read_ok _ _ _ heq
    cases h
    exact ⟨rfl, rfl, by rw [htr]; simp, hlt⟩

/-- Effect of a completed `_swap_in` on the cache state: the chosen way of set
`idx` is filled with the new tag (valid, clean, timer untouched), every other
line of that set and every other set is unchanged, and the chosen way is in
range. -/
theorem swap_in_ok_effect (c c' : SetAssocCache) (tag idx way : Nat) (tr : List Ev)
    (h : c.swap_in tag idx = .ok c' tr way) :
    idx < c.data.length ∧ way < (c.data.getD idx []).length ∧
    c'.physical = c.physical ∧ c'.size = c.size ∧ c'.associativity = c.associativity ∧
    c'.blockSize = c.blockSize ∧ c'.data.length = c.data.length ∧
    ((c'.data.getD idx []).length = (c.data.getD idx []).length) ∧
    (∀ j, j ≠ idx → c'.data.getD j [] = c.data.getD j []) ∧
    (∀ w, w ≠ way → c'.lineAt idx w = c.lineAt idx w) ∧
    c'.lineAt idx way = { c.lineAt idx way with tag := tag, valid := true, dirty := false } := by
  unfold SetAssocCache.swap_in at h
  split at h
  case isFalse => cases h
  case isTrue htag =>
    split at h
    case isFalse => cases h
    case isTrue hidx =>
      split at h
      case h_1 way0 hfind =>
        obtain ⟨hway', hc', _, _⟩ := swap_in_fill_ok_char _ _ _ _ _ _ _ _ h
        subst hway'
        have hw0 : way < (c.data.getD idx []).length := firstIdx?_some_lt _ _ _ hfind
        subst hc'
        refine ⟨hidx, hw0, rfl, rfl, rfl, rfl, modLine_data_length c idx way _, modLine_set_len c idx way _ idx, ?_, ?_, ?_⟩
        · exact fun j hj => modLine_set_other c idx way _ j hj
        · exact fun w hw => modLine_lineAt_other c idx way _ w hw
        · exact modLine_lineAt_self c idx way _ hidx hw0
      case h_2 hfind =>
        dsimp only at h
        split at h
        case h_2 => cases h
        case h_1 c1 tr1 u hso =>
          obtain ⟨hway', hc', _, _⟩ := swap_in_fill_ok_char _ _ _ _ _ _ _ _ h
          obtain ⟨_, hwaylt, hvalid, hc1, _⟩ := swap_out_ok_char _ _ _ _ _ hso
          rw [← hway'] at hwaylt hvalid hc1 hc'
          -- the evicted way is in range: an out-of-range way would read the
          -- default (invalid) line, contradicting hvalid
          have hw0 : way < (c.data.getD idx []).length := by
            by_contra hge
            have : (c.data.getD idx []).getD way default = default :=
              List.getD_eq_default _ _ (Nat.le_of_not_lt hge)
            unfold SetAssocCache.lineAt at hvalid
            rw [this] at hvalid
            simp [default] at hvalid
          subst hc'
          subst hc1
          have hlen : ((c.modLine idx way fun l => { l with valid := false }).data.getD idx []).length
              = (c.data.getD idx []).length := modLine_set_len c idx way _ idx
          refine ⟨hidx, hw0, rfl, rfl, rfl, rfl, ?_, ?_, ?_, ?_, ?_⟩
          · rw [modLine_data_length, modLine_data_length]
          · rw [modLine_set_len, modLine_set_len]
          · intro j hj
            rw [modLine_set_other _ idx way _ j hj, modLine_set_other c idx way _ j hj]
          · intro w hw
            rw [modLine_lineAt_other _ idx way _ w hw, modLine_lineAt_other c idx way _ w hw]
          · rw [modLine_lineAt_self _ idx way _ (by rw [modLine_data_length]; exact hidx) (by rw [hlen]; exact hw0),
                modLine_lineAt_self c idx way _ hidx hw0]

theorem getD_mem (l : List α) (n : Nat) (d : α) (h : n < l.length) : l.getD n d ∈ l := by
  induction l generalizing n with
  | nil => simp at h
  | cons a l ih => cases n with
    | zero => simp
    | succ n =>
      simp only [List.getD_cons_succ]
      exact List.mem_cons_of_mem a (ih n (by simpa using h))

/-- A completed `SetAssocCache.read` is either a hit followed by the LRU
update, or a miss followed by `_swap_in` and the LRU update. -/
theorem read_ok_char (c c' : SetAssocCache) (addr : Nat) (tr : List Ev)
    (h : c.read addr = .ok c' tr ()) :
    addr < c.physical.size ∧
    ((∃ way, firstIdx? (fun l => l.valid && l.tag == c.tagOf addr)
          (c.data.getD (c.idxOf addr) []) = some way ∧
        c' = c.touch (c.idxOf addr) way ∧ tr = [.cacheHit]) ∨
     (firstIdx? (fun l => l.valid && l.tag == c.tagOf addr)
          (c.data.getD (c.idxOf addr) []) = none ∧
      ∃ cm trm way, c.swap_in (c.tagOf addr) (c.idxOf addr) = .ok cm trm way ∧
        c' = cm.touch (c.idxOf addr) way ∧ tr = [.cacheMiss] ++ trm)) := by
  unfold SetAssocCache.read at h
  split at h
  case isFalse => cases h
  case isTrue haddr =>
    dsimp only at h
    split at h
    case h_1 way hfind =>
      cases h
      exact ⟨haddr, .inl ⟨way, hfind, rfl, rfl⟩⟩
    case h_2 hfind =>
      split at h
      case h_1 cm trm way hsi =>
        cases h
        exact ⟨haddr, .inr ⟨hfind, cm, trm, way, hsi, rfl, rfl⟩⟩
      case h_2 => cases h

/-- A completed `SetAssocCache.write` is either a hit or a miss with swap-in,
followed by the dirty-marking LRU update. -/
theorem write_ok_char (c c' : SetAssocCache) (addr : Nat) (tr : List Ev)
    (h : c.write addr = .ok c' tr ()) :
    addr < c.physical.size ∧
    ((∃ way, firstIdx? (fun l => l.valid && l.tag == c.tagOf addr)
          (c.data.getD (c.idxOf addr) []) = some way ∧
        c' = c.touchW (c.idxOf addr) way ∧ tr = [.cacheHit]) ∨
     (firstIdx? (fun l => l.valid && l.tag == c.tagOf addr)
          (c.data.getD (c.idxOf addr) []) = none ∧
      ∃ cm trm way, c.swap_in (c.tagOf addr) (c.idxOf addr) = .ok cm trm way ∧
        c' = cm.touchW (c.idxOf addr) way ∧ tr = [.cacheMiss] ++ trm)) := by
  unfold SetAssocCache.write at h
  split at h
  case isFalse => cases h
  case isTrue haddr =>
    dsimp only at h
    split at h
    case h_1 way hfind =>
      cases h
      exact ⟨haddr, .inl ⟨way, hfind, rfl, rfl⟩⟩
    case h_2 hfind =>
      split at h
      case h_1 cm trm way hsi =>
        cases h
        exact ⟨haddr, .inr ⟨hfind, cm, trm, way, hsi, rfl, rfl⟩⟩
      case h_2 => cases h

/-- Well-formedness of a cache state, as established by `SetAssocCache.build`
with positive sizes: positive geometry, the constructor's divisibility assert,
and the directory dimensions. -/
def SetAssocCache.WF (c : SetAssocCache) : Prop :=
  0 < c.blockSize ∧ 0 < c.associativity ∧ c.blockSize = c.physical.block_size ∧
  c.size % (c.associativity * c.blockSize) = 0 ∧
  c.data.length = c.size / (c.associativity * c.blockSize) ∧
  ∀ s ∈ c.data, s.length = c.associativity

instance (c : SetAssocCache) : Decidable c.WF := by
  unfold SetAssocCache.WF; infer_instance

/-! ## Claim C3: cache LRU counter update (corrected) -/

/-- C3, counterexample to the claim as stated: on the completed read of
address 0 (a valid address) the accessed line — the unique valid line of its
set, holding the accessed tag — ends with LRU counter 1, not 0: the source
resets it to 0 and then the closing loop `for line in self.data[idx]:
line.timer += 1` increments every line of the set including the accessed one. -/
theorem c3_counterexample :
    (cache0.read 0).isOk = true ∧
    cache0.idxOf 0 = 0 ∧
    ((cache0.read 0).stateOf.lineAt 0 0).valid = true ∧
    ((cache0.read 0).stateOf.lineAt 0 0).tag = cache0.tagOf 0 ∧
    ((cache0.read 0).stateOf.lineAt 0 0).timer = 1 := by
  decide

/-- C3 (amended): after every completed `SetAssocCache.read` or
`SetAssocCache.write` on a valid address, the accessed (hit or newly
swapped-in) line's LRU counter equals 1 — it is reset to 0 and then swept up
by the set-wide increment — every other line in the same set has its counter
incremented by exactly 1 (in particular every other valid line), and lines in
other sets are unchanged. -/
theorem c3_cache_lru_counters_amended :
    (∀ (c c' : SetAssocCache) (addr : Nat) (tr : List Ev), c.WF →
      c.read addr = .ok c' tr () →
      ∃ way, way < c.associativity ∧
        (c'.lineAt (c.idxOf addr) way).valid = true ∧
        (c'.lineAt (c.idxOf addr) way).tag = c.tagOf addr ∧
        (c'.lineAt (c.idxOf addr) way).timer = 1 ∧
        (∀ w, w < c.associativity → w ≠ way →
          (c'.lineAt (c.idxOf addr) w).timer = (c.lineAt (c.idxOf addr) w).timer + 1) ∧
        (∀ j, j ≠ c.idxOf addr → c'.data.getD j [] = c.data.getD j [])) ∧
    (∀ (c c' : SetAssocCache) (addr : Nat) (tr : List Ev), c.WF →
      c.write addr = .ok c' tr () →
      ∃ way, way < c.associativity ∧
        (c'.lineAt (c.idxOf addr) way).valid = true ∧
        (c'.lineAt (c.idxOf addr) way).tag = c.tagOf addr ∧
        (c'.lineAt (c.idxOf addr) way).timer = 1 ∧
        (∀ w, w < c.associativity → w ≠ way →
          (c'.lineAt (c.idxOf addr) w).timer = (c.lineAt (c.idxOf addr) w).timer + 1) ∧
        (∀ j, j ≠ c.idxOf addr → c'.data.getD j [] = c.data.getD j [])) := by
  constructor
  · intro c c' addr tr hWF hok
    obtain ⟨haddr, hcase⟩ := read_ok_char c c' addr tr hok
    rcases hcase with ⟨way, hfind, rfl, htr⟩ | ⟨hfind, cm, trm, way, hsi, rfl, htr⟩
    · have hwlt : way < (c.data.getD (c.idxOf addr) []).length := firstIdx?_some_lt _ _ _ hfind
      have hidx : c.idxOf addr < c.data.length := by
        by_contra hge
        rw [List.getD_eq_default _ _ (Nat.le_of_not_lt hge)] at hwlt
        simp at hwlt
      have hslen : (c.data.getD (c.idxOf addr) []).length = c.associativity :=
        hWF.2.2.2.2.2 _ (getD_mem _ _ _ hidx)
      have hpred := firstIdx?_some_pred _ _ _ default hfind
      rw [Bool.and_eq_true, beq_iff_eq] at hpred
      have hself := touch_lineAt_self c (c.idxOf addr) way hidx hwlt
      refine ⟨way, hslen ▸ hwlt, ?_, ?_, ?_, ?_, ?_⟩
      · rw [hself]; exact hpred.1
      · rw [hself]; exact hpred.2
      · rw [hself]
      · intro w hw hwne
        rw [touch_lineAt_other c (c.idxOf addr) way w hidx (hslen ▸ hw) hwne]
      · exact fun j hj => touch_set_other c (c.idxOf addr) way j hj
    · obtain ⟨hidx, hwlt, hphys, hsize, hassoc, hbs, hdlen, hslen', hsets, hlines, hline⟩ :=
        swap_in_ok_effect _ _ _ _ _ _ hsi
      have hslen : (c.data.getD (c.idxOf addr) []).length = c.associativity :=
        hWF.2.2.2.2.2 _ (getD_mem _ _ _ hidx)
      have hi' : c.idxOf addr < cm.data.length := by rw [hdlen]; exact hidx
      have hw' : way < (cm.data.getD (c.idxOf addr) []).length := by rw [hslen']; exact hwlt
      have hself := touch_lineAt_self cm (c.idxOf addr) way hi' hw'
      refine ⟨way, hslen ▸ hwlt, ?_, ?_, ?_, ?_, ?_⟩
      · rw [hself, hline]
      · rw [hself, hline]
      · rw [hself]
      · intro w hw hwne
        have hwcm : w < (cm.data.getD (c.idxOf addr) []).length := by
          rw [hslen', hslen]; exact hw
        rw [touch_lineAt_other cm (c.idxOf addr) way w hi' hwcm hwne, hlines w hwne]
      · intro j hj
        rw [touch_set_other cm (c.idxOf addr) way j hj, hsets j hj]
  · intro c c' addr tr hWF hok
    obtain ⟨haddr, hcase⟩ := write_ok_char c c' addr tr hok
    rcases hcase with ⟨way, hfind, rfl, htr⟩ | ⟨hfind, cm, trm, way, hsi, rfl, htr⟩
    · have hwlt : way < (c.data.getD (c.idxOf addr) []).length := firstIdx?_some_lt _ _ _ hfind
      have hidx : c.idxOf addr < c.data.length := by
        by_contra hge
        rw [List.getD_eq_default _ _ (Nat.le_of_not_lt hge)] at hwlt
        simp at hwlt
      have hslen : (c.data.getD (c.idxOf addr) []).length = c.associativity :=
        hWF.2.2.2.2.2 _ (getD_mem _ _ _ hidx)
      have hpred := firstIdx?_some_pred _ _ _ default hfind
      rw [Bool.and_eq_true, beq_iff_eq] at hpred
      have hself := touchW_lineAt_self c (c.idxOf addr) way hidx hwlt
      refine ⟨way, hslen ▸ hwlt, ?_, ?_, ?_, ?_, ?_⟩
      · rw [hself]; exact hpred.1
      · rw [hself]; exact hpred.2
      · rw [hself]
      · intro w hw hwne
        rw [touchW_lineAt_other c (c.idxOf addr) way w hidx (hslen ▸ hw) hwne]
      · exact fun j hj => touchW_set_other c (c.idxOf addr) way j hj
    · obtain ⟨hidx, hwlt, hphys, hsize, hassoc, hbs, hdlen, hslen', hsets, hlines, hline⟩ :=
        swap_in_ok_effect _ _ _ _ _ _ hsi
      have hslen : (c.data.getD (c.idxOf addr) []).length = c.associativity :=
        hWF.2.2.2.2.2 _ (getD_mem _ _ _ hidx)
      have hi' : c.idxOf addr < cm.data.length := by rw [hdlen]; exact hidx
      have hw' : way < (cm.data.getD (c.idxOf addr) []).length := by rw [hslen']; exact hwlt
      have hself := touchW_lineAt_self cm (c.idxOf addr) way hi' hw'
      refine ⟨way, hslen ▸ hwlt, ?_, ?_, ?_, ?_, ?_⟩
      · rw [hself, hline]
      · rw [hself, hline]
      · rw [hself]
      · intro w hw hwne
        have hwcm : w < (cm.data.getD (c.idxOf addr) []).length := by
          rw [hslen', hslen]; exact hw
        rw [touchW_lineAt_other cm (c.idxOf addr) way w hi' hwcm hwne, hlines w hwne]
      · intro j hj
        rw [touchW_set_other cm (c.idxOf addr) way j hj, hsets j hj]

/-- Cache state after a completed read of address 0: set 0 way 0 holds tag 0,
so a write of address 0 hits. -/
def cache1 : SetAssocCache := (cache0.read 0).stateOf

/-- Witness for the amended C3: applied to the miss read `cache0.read 0` and
to the hit write `cache1.write 0`. -/
theorem c3_witness :
    (∃ way, way < cache0.associativity ∧
      ((cache0.read 0).stateOf.lineAt (cache0.idxOf 0) way).valid = true ∧
      ((cache0.read 0).stateOf.lineAt (cache0.idxOf 0) way).tag = cache0.tagOf 0 ∧
      ((cache0.read 0).stateOf.lineAt (cache0.idxOf 0) way).timer = 1 ∧
      (∀ w, w < cache0.associativity → w ≠ way →
        ((cache0.read 0).stateOf.lineAt (cache0.idxOf 0) w).timer =
          (cache0.lineAt (cache0.idxOf 0) w).timer + 1) ∧
      (∀ j, j ≠ cache0.idxOf 0 →
        (cache0.read 0).stateOf.data.getD j [] = cache0.data.getD j [])) ∧
    (∃ way, way < cache1.associativity ∧
      ((cache1.write 0).stateOf.lineAt (cache1.idxOf 0) way).valid = true ∧
      ((cache1.write 0).stateOf.lineAt (cache1.idxOf 0) way).tag = cache1.tagOf 0 ∧
      ((cache1.write 0).stateOf.lineAt (cache1.idxOf 0) way).timer = 1 ∧
      (∀ w, w < cache1.associativity → w ≠ way →
        ((cache1.write 0).stateOf.lineAt (cache1.idxOf 0) w).timer =
          (cache1.lineAt (cache1.idxOf 0) w).timer + 1) ∧
      (∀ j, j ≠ cache1.idxOf 0 →
        (cache1.write 0).stateOf.data.getD j [] = cache1.data.getD j [])) :=
  ⟨c3_cache_lru_counters_amended.1 cache0 (cache0.read 0).stateOf 0 (cache0.read 0).traceOf
      (by decide) (by decide),
   c3_cache_lru_counters_amended.2 cache1 (cache1.write 0).stateOf 0 (cache1.write 0).traceOf
      (by decide) (by decide)⟩

/-! ## Claim C4: cache eviction correctness -/

theorem firstIdx?_none_of_all (p : α → Bool) (l : List α)
    (h : ∀ x ∈ l, p x = false) : firstIdx? p l = none := by
  induction l with
  | nil => rfl
  | cons a l ih =>
    rw [firstIdx?_cons, if_neg (by rw [h a (by simp)]; simp)]
    rw [ih (fun x hx => h x (List.mem_cons_of_mem a hx))]
    rfl

/-- Behaviour of the `max(..., key=...)` scan: either nothing beats the running
best, or the first strictly-better element (and then first-encountered-wins
among later ties) is returned. -/
theorem argmaxFrom_char (ls : List SetAssocCache.Line) (best bestT i : Nat) :
    (SetAssocCache.argmaxFrom best bestT i ls = best ∧
       ∀ j < ls.length, (ls.getD j default).timer ≤ bestT) ∨
    (∃ k, k < ls.length ∧ SetAssocCache.argmaxFrom best bestT i ls = i + k ∧
       bestT < (ls.getD k default).timer ∧
       (∀ j < ls.length, (ls.getD j default).timer ≤ (ls.getD k default).timer) ∧
       (∀ j < k, (ls.getD j default).timer < (ls.getD k default).timer)) := by
  induction ls generalizing best bestT i with
  | nil => exact .inl ⟨rfl, by simp⟩
  | cons l ls ih =>
    unfold SetAssocCache.argmaxFrom
    by_cases hgt : l.timer > bestT
    · rw [if_pos hgt]
      rcases ih i l.timer (i + 1) with ⟨hr, hall⟩ | ⟨k, hk, hr, hbt, hmax, hstrict⟩
      · right
        refine ⟨0, by simp, by rw [hr]; omega, ?_, ?_, ?_⟩
        · simpa using hgt
        · intro j hj
          cases j with
          | zero => simp
          | succ j =>
            simp only [List.getD_cons_succ, List.getD_cons_zero]
            exact hall j (by simpa using hj)
        · intro j hj
          omega
      · right
        refine ⟨k + 1, by simpa using hk, by rw [hr]; omega, ?_, ?_, ?_⟩
        · simp only [List.getD_cons_succ]
          omega
        · intro j hj
          cases j with
          | zero =>
            simp only [List.getD_cons_succ, List.getD_cons_zero]
            omega
          | succ j =>
            simp only [List.getD_cons_succ]
            exact hmax j (by simpa using hj)
        · intro j hj
          cases j with
          | zero =>
            simp only [List.getD_cons_succ, List.getD_cons_zero]
            omega
          | succ j =>
            simp only [List.getD_cons_succ]
            exact hstrict j (by omega)
    · rw [if_neg hgt]
      rcases ih best bestT (i + 1) with ⟨hr, hall⟩ | ⟨k, hk, hr, hbt, hmax, hstrict⟩
      · left
        refine ⟨hr, ?_⟩
        intro j hj
        cases j with
        | zero => simpa using Nat.le_of_not_lt hgt
        | succ j =>
          simp only [List.getD_cons_succ]
          exact hall j (by simpa using hj)
      · right
        have hle : l.timer ≤ bestT := Nat.le_of_not_lt hgt
        refine ⟨k + 1, by simpa using hk, by rw [hr]; omega, ?_, ?_, ?_⟩
        · simp only [List.getD_cons_succ]
          omega
        · intro j hj
          cases j with
          | zero =>
            simp only [List.getD_cons_succ, List.getD_cons_zero]
            omega
          | succ j =>
            simp only [List.getD_cons_succ]
            exact hmax j (by simpa using hj)
        · intro j hj
          cases j with
          | zero =>
            simp only [List.getD_cons_succ, List.getD_cons_zero]
            omega
          | succ j =>
            simp only [List.getD_cons_succ]
            exact hstrict j (by omega)

/-- The way chosen by the eviction scan is in range, attains the maximal LRU
counter in the set, and is the lowest way index attaining it. -/
theorem argmaxTimer_char (ls : List SetAssocCache.Line) (h : ls ≠ []) :
    SetAssocCache.argmaxTimer ls < ls.length ∧
    (∀ j < ls.length,
      (ls.getD j default).timer ≤ (ls.getD (SetAssocCache.argmaxTimer ls) default).timer) ∧
    (∀ j < SetAssocCache.argmaxTimer ls,
      (ls.getD j default).timer < (ls.getD (SetAssocCache.argmaxTimer ls) default).timer) := by
  cases ls with
  | nil => exact absurd rfl h
  | cons l ls =>
    have hdef : SetAssocCache.argmaxTimer (l :: ls) = SetAssocCache.argmaxFrom 0 l.timer 1 ls := rfl
    rw [hdef]
    rcases argmaxFrom_char ls 0 l.timer 1 with ⟨hr, hall⟩ | ⟨k, hk, hr, hbt, hmax, hstrict⟩
    · rw [hr]
      refine ⟨by simp, ?_, by omega⟩
      intro j hj
      cases j with
      | zero => simp
      | succ j =>
        simp only [List.getD_cons_succ, List.getD_cons_zero]
        exact hall j (by simpa using hj)
    · rw [hr]
      have h1k : 1 + k = k + 1 := by omega
      rw [h1k]
      refine ⟨by simpa using hk, ?_, ?_⟩
      · intro j hj
        cases j with
        | zero =>
          simp only [List.getD_cons_succ, List.getD_cons_zero]
          omega
        | succ j =>
          simp only [List.getD_cons_succ]
          exact hmax j (by simpa using hj)
      · intro j hj
        cases j with
        | zero =>
          simp only [List.getD_cons_succ, List.getD_cons_zero]
          omega
        | succ j =>
          simp only [List.getD_cons_succ]
          exact hstrict j (by omega)

/-- A completed `_swap_in` into a set whose lines are all valid evicts exactly
the way chosen by the `max`-scan, with the write-back-iff-dirty trace, and then
loads the block. -/
theorem swap_in_full_char (c cm : SetAssocCache) (tag idx way : Nat) (trm : List Ev)
    (hfull : ∀ l ∈ c.data.getD idx [], l.valid = true)
    (h : c.swap_in tag idx = .ok cm trm way) :
    way = SetAssocCache.argmaxTimer (c.data.getD idx []) ∧
    trm = [Ev.cacheSetFull] ++
          (if (c.lineAt idx way).dirty then
             [Ev.cacheWriteBack (idx * c.associativity + way),
              Ev.physWriteBlock (c.getAddr (c.lineAt idx way).tag idx 0 / c.physical.block_size)]
           else [Ev.cacheNoWriteBack (idx * c.associativity + way)]) ++
          [Ev.physReadBlock (c.getAddr tag idx 0 / c.physical.block_size), Ev.cacheLoadBlock] := by
  unfold SetAssocCache.swap_in at h
  split at h
  case isFalse => cases h
  case isTrue htag =>
    split at h
    case isFalse => cases h
    case isTrue hidx =>
      have hnone : firstIdx? (fun l => !l.valid) (c.data.getD idx []) = none :=
        firstIdx?_none_of_all _ _ (fun x hx => by rw [hfull x hx]; rfl)
      rw [hnone] at h
      dsimp only at h
      split at h
      case h_2 => cases h
      case h_1 c1 tr1 u hso =>
        obtain ⟨hway', hc', htr', _⟩ := swap_in_fill_ok_char _ _ _ _ _ _ _ _ h
        obtain ⟨_, _, _, hc1, htr1⟩ := swap_out_ok_char _ _ _ _ _ hso
        rw [← hway'] at hc1 htr1 hc'
        refine ⟨hway'.symm ▸ hway', ?_⟩
        · rw [htr', htr1]
          subst hc1
          rfl

/-- C4. For every completed cache miss (read or write) on a set whose lines
are all valid: the evicted way attains the maximum LRU counter in the set and
is the lowest way index doing so; the trace shows the eviction writes the block
back to PhysicalMemory iff the evicted line was dirty, and the write-back
precedes the physical read of the new block (the line being marked invalid in
between); and the accessed line ends valid with the new tag, with
`dirty = false` after a read and `dirty = true` after a write. -/
theorem c4_cache_eviction_correctness :
    (∀ (c c' : SetAssocCache) (addr : Nat) (tr : List Ev), c.WF →
      (∀ l ∈ c.data.getD (c.idxOf addr) [], l.valid = true) →
      firstIdx? (fun l => l.valid && l.tag == c.tagOf addr)
        (c.data.getD (c.idxOf addr) []) = none →
      c.read addr = .ok c' tr () →
      ∃ way, way = SetAssocCache.argmaxTimer (c.data.getD (c.idxOf addr) []) ∧
        way < c.associativity ∧
        (∀ w, w < c.associativity →
          (c.lineAt (c.idxOf addr) w).timer ≤ (c.lineAt (c.idxOf addr) way).timer) ∧
        (∀ w, w < c.associativity →
          (c.lineAt (c.idxOf addr) w).timer = (c.lineAt (c.idxOf addr) way).timer → way ≤ w) ∧
        tr = [Ev.cacheMiss, Ev.cacheSetFull] ++
             (if (c.lineAt (c.idxOf addr) way).dirty then
                [Ev.cacheWriteBack ((c.idxOf addr) * c.associativity + way),
                 Ev.physWriteBlock (c.getAddr (c.lineAt (c.idxOf addr) way).tag
                   (c.idxOf addr) 0 / c.physical.block_size)]
              else [Ev.cacheNoWriteBack ((c.idxOf addr) * c.associativity + way)]) ++
             [Ev.physReadBlock (c.getAddr (c.tagOf addr) (c.idxOf addr) 0 / c.physical.block_size),
              Ev.cacheLoadBlock] ∧
        (c'.lineAt (c.idxOf addr) way).valid = true ∧
        (c'.lineAt (c.idxOf addr) way).tag = c.tagOf addr ∧
        (c'.lineAt (c.idxOf addr) way).dirty = false) ∧
    (∀ (c c' : SetAssocCache) (addr : Nat) (tr : List Ev), c.WF →
      (∀ l ∈ c.data.getD (c.idxOf addr) [], l.valid = true) →
      firstIdx? (fun l => l.valid && l.tag == c.tagOf addr)
        (c.data.getD (c.idxOf addr) []) = none →
      c.write addr = .ok c' tr () →
      ∃ way, way = SetAssocCache.argmaxTimer (c.data.getD (c.idxOf addr) []) ∧
        way < c.associativity ∧
        (∀ w, w < c.associativity →
          (c.lineAt (c.idxOf addr) w).timer ≤ (c.lineAt (c.idxOf addr) way).timer) ∧
        (∀ w, w < c.associativity →
          (c.lineAt (c.idxOf addr) w).timer = (c.lineAt (c.idxOf addr) way).timer → way ≤ w) ∧
        tr = [Ev.cacheMiss, Ev.cacheSetFull] ++
             (if (c.lineAt (c.idxOf addr) way).dirty then
                [Ev.cacheWriteBack ((c.idxOf addr) * c.associativity + way),
                 Ev.physWriteBlock (c.getAddr (c.lineAt (c.idxOf addr) way).tag
                   (c.idxOf addr) 0 / c.physical.block_size)]
              else [Ev.cacheNoWriteBack ((c.idxOf addr) * c.associativity + way)]) ++
             [Ev.physReadBlock (c.getAddr (c.tagOf addr) (c.idxOf addr) 0 / c.physical.block_size),
              Ev.cacheLoadBlock] ∧
        (c'.lineAt (c.idxOf addr) way).valid = true ∧
        (c'.lineAt (c.idxOf addr) way).tag = c.tagOf addr ∧
        (c'.lineAt (c.idxOf addr) way).dirty = true) := by
  constructor
  · intro c c' addr tr hWF hfull hmiss hok
    obtain ⟨haddr, hcase⟩ := read_ok_char c c' addr tr hok
    rcases hcase with ⟨way, hfind, rfl, htr⟩ | ⟨hfind, cm, trm, way, hsi, rfl, htr⟩
    · rw [hmiss] at hfind; cases hfind
    · obtain ⟨hidx, hwlt, hphys, hsize, hassoc, hbs, hdlen, hslen', hsets, hlines, hline⟩ :=
        swap_in_ok_effect _ _ _ _ _ _ hsi
      obtain ⟨hway, htrm⟩ := swap_in_full_char _ _ _ _ _ _ hfull hsi
      have hslen : (c.data.getD (c.idxOf addr) []).length = c.associativity :=
        hWF.2.2.2.2.2 _ (getD_mem _ _ _ hidx)
      have hne : c.data.getD (c.idxOf addr) [] ≠ [] := by
        intro hcon
        rw [hcon] at hwlt
        simp at hwlt
      obtain ⟨ham_lt, ham_max, ham_strict⟩ := argmaxTimer_char _ hne
      rw [← hway] at ham_lt ham_max ham_strict
      have hi' : c.idxOf addr < cm.data.length := by rw [hdlen]; exact hidx
      have hw' : way < (cm.data.getD (c.idxOf addr) []).length := by rw [hslen']; exact hwlt
      have hself := touch_lineAt_self cm (c.idxOf addr) way hi' hw'
      refine ⟨way, hway, hslen ▸ hwlt, ?_, ?_, ?_, ?_, ?_, ?_⟩
      · intro w hw
        exact ham_max w (hslen.symm ▸ hw)
      · intro w hw heq
        by_contra hlt
        exact absurd heq (Nat.ne_of_lt (ham_strict w (Nat.lt_of_not_le hlt)))
      · rw [htr, htrm]; simp [List.append_assoc]
      · rw [hself, hline]
      · rw [hself, hline]
      · rw [hself, hline]
  · intro c c' addr tr hWF hfull hmiss hok
    obtain ⟨haddr, hcase⟩ := write_ok_char c c' addr tr hok
    rcases hcase with ⟨way, hfind, rfl, htr⟩ | ⟨hfind, cm, trm, way, hsi, rfl, htr⟩
    · rw [hmiss] at hfind; cases hfind
    · obtain ⟨hidx, hwlt, hphys, hsize, hassoc, hbs, hdlen, hslen', hsets, hlines, hline⟩ :=
        swap_in_ok_effect _ _ _ _ _ _ hsi
      obtain ⟨hway, htrm⟩ := swap_in_full_char _ _ _ _ _ _ hfull hsi
      have hslen : (c.data.getD (c.idxOf addr) []).length = c.associativity :=
        hWF.2.2.2.2.2 _ (getD_mem _ _ _ hidx)
      have hne : c.data.getD (c.idxOf addr) [] ≠ [] := by
        intro hcon
        rw [hcon] at hwlt
        simp at hwlt
      obtain ⟨ham_lt, ham_max, ham_strict⟩ := argmaxTimer_char _ hne
      rw [← hway] at ham_lt ham_max ham_strict
      have hi' : c.idxOf addr < cm.data.length := by rw [hdlen]; exact hidx
      have hw' : way < (cm.data.getD (c.idxOf addr) []).length := by rw [hslen']; exact hwlt
      have hself := touchW_lineAt_self cm (c.idxOf addr) way hi' hw'
      refine ⟨way, hway, hslen ▸ hwlt, ?_, ?_, ?_, ?_, ?_, ?_⟩
      · intro w hw
        exact ham_max w (hslen.symm ▸ hw)
      · intro w hw heq
        by_contra hlt
        exact absurd heq (Nat.ne_of_lt (ham_strict w (Nat.lt_of_not_le hlt)))
      · rw [htr, htrm]; simp [List.append_assoc]
      · rw [hself, hline]
      · rw [hself, hline]
      · rw [hself, hline]

/-- Witness for C4: in `cache1` set 0 is at full occupancy holding tag 0, and
address 8 maps to set 0 with tag 1, so reading (resp. writing) it is a miss
that must evict. -/
theorem c4_witness :
    (∃ way, way = SetAssocCache.argmaxTimer (cache1.data.getD (cache1.idxOf 8) []) ∧
      way < cache1.associativity ∧
      (∀ w, w < cache1.associativity →
        (cache1.lineAt (cache1.idxOf 8) w).timer ≤ (cache1.lineAt (cache1.idxOf 8) way).timer) ∧
      (∀ w, w < cache1.associativity →
        (cache1.lineAt (cache1.idxOf 8) w).timer = (cache1.lineAt (cache1.idxOf 8) way).timer →
          way ≤ w) ∧
      (cache1.read 8).traceOf = [Ev.cacheMiss, Ev.cacheSetFull] ++
           (if (cache1.lineAt (cache1.idxOf 8) way).dirty then
              [Ev.cacheWriteBack ((cache1.idxOf 8) * cache1.associativity + way),
               Ev.physWriteBlock (cache1.getAddr (cache1.lineAt (cache1.idxOf 8) way).tag
                 (cache1.idxOf 8) 0 / cache1.physical.block_size)]
            else [Ev.cacheNoWriteBack ((cache1.idxOf 8) * cache1.associativity + way)]) ++
           [Ev.physReadBlock (cache1.getAddr (cache1.tagOf 8) (cache1.idxOf 8) 0 /
              cache1.physical.block_size), Ev.cacheLoadBlock] ∧
      ((cache1.read 8).stateOf.lineAt (cache1.idxOf 8) way).valid = true ∧
      ((cache1.read 8).stateOf.lineAt (cache1.idxOf 8) way).tag = cache1.tagOf 8 ∧
      ((cache1.read 8).stateOf.lineAt (cache1.idxOf 8) way).dirty = false) ∧
    (∃ way, way = SetAssocCache.argmaxTimer (cache1.data.getD (cache1.idxOf 8) []) ∧
      way < cache1.associativity ∧
      (∀ w, w < cache1.associativity →
        (cache1.lineAt (cache1.idxOf 8) w).timer ≤ (cache1.lineAt (cache1.idxOf 8) way).timer) ∧
      (∀ w, w < cache1.associativity →
        (cache1.lineAt (cache1.idxOf 8) w).timer = (cache1.lineAt (cache1.idxOf 8) way).timer →
          way ≤ w) ∧
      (cache1.write 8).traceOf = [Ev.cacheMiss, Ev.cacheSetFull] ++
           (if (cache1.lineAt (cache1.idxOf 8) way).dirty then
              [Ev.cacheWriteBack ((cache1.idxOf 8) * cache1.associativity + way),
               Ev.physWriteBlock (cache1.getAddr (cache1.lineAt (cache1.idxOf 8) way).tag
                 (cache1.idxOf 8) 0 / cache1.physical.block_size)]
            else [Ev.cacheNoWriteBack ((cache1.idxOf 8) * cache1.associativity + way)]) ++
           [Ev.physReadBlock (cache1.getAddr (cache1.tagOf 8) (cache1.idxOf 8) 0 /
              cache1.physical.block_size), Ev.cacheLoadBlock] ∧
      ((cache1.write 8).stateOf.lineAt (cache1.idxOf 8) way).valid = true ∧
      ((cache1.write 8).stateOf.lineAt (cache1.idxOf 8) way).tag = cache1.tagOf 8 ∧
      ((cache1.write 8).stateOf.lineAt (cache1.idxOf 8) way).dirty = true) :=
  ⟨c4_cache_eviction_correctness.1 cache1 (cache1.read 8).stateOf 8 (cache1.read 8).traceOf
      (by decide) (by decide) (by decide) (by decide),
   c4_cache_eviction_correctness.2 cache1 (cache1.write 8).stateOf 8 (cache1.write 8).traceOf
      (by decide) (by decide) (by decide) (by decide)⟩

/-! ## Claim C8: cache tag uniqueness -/

/-- No two valid lines within the same cache set share a tag. -/
def SetAssocCache.tagsUnique (c : SetAssocCache) : Prop :=
  ∀ i, i < c.data.length → ∀ w1, w1 < (c.data.getD i []).length →
    ∀ w2, w2 < (c.data.getD i []).length → w1 ≠ w2 →
    (c.lineAt i w1).valid = true → (c.lineAt i w2).valid = true →
    (c.lineAt i w1).tag ≠ (c.lineAt i w2).tag

instance (c : SetAssocCache) : Decidable c.tagsUnique :=
  @Nat.decidableBallLT _ _ fun _ _ =>
    @Nat.decidableBallLT _ _ fun _ _ =>
      @Nat.decidableBallLT _ _ fun _ _ => inferInstance

/-- `c'` refines `c` by only clearing valid bits and/or touching fields other
than `valid`/`tag`: same geometry, validity only decreases, tags unchanged. -/
def SetAssocCache.Weakens (c' c : SetAssocCache) : Prop :=
  c'.physical = c.physical ∧ c'.size = c.size ∧ c'.associativity = c.associativity ∧
  c'.blockSize = c.blockSize ∧ c'.data.length = c.data.length ∧
  (∀ i, (c'.data.getD i []).length = (c.data.getD i []).length) ∧
  (∀ i w, ((c'.lineAt i w).valid = true → (c.lineAt i w).valid = true) ∧
          (c'.lineAt i w).tag = (c.lineAt i w).tag)

theorem weakens_refl (c : SetAssocCache) : c.Weakens c :=
  ⟨rfl, rfl, rfl, rfl, rfl, fun _ => rfl, fun _ _ => ⟨id, rfl⟩⟩

theorem weakens_trans {c1 c2 c3 : SetAssocCache} (h12 : c1.Weakens c2) (h23 : c2.Weakens c3) :
    c1.Weakens c3 := by
  obtain ⟨a1, b1, d1, e1, f1, g1, p1⟩ := h12
  obtain ⟨a2, b2, d2, e2, f2, g2, p2⟩ := h23
  refine ⟨a1.trans a2, b1.trans b2, d1.trans d2, e1.trans e2, f1.trans f2,
    fun i => (g1 i).trans (g2 i), fun i w => ⟨fun hv => (p2 i w).1 ((p1 i w).1 hv),
    ((p1 i w).2).trans ((p2 i w).2)⟩⟩

/-- Pointwise effect of `modLine i w f` followed by mapping `g` over set `i`
(the shape of `touch`/`touchW`) when `f` and `g` preserve `valid` and `tag`. -/
theorem touchLike_valid_tag (c : SetAssocCache) (i w : Nat)
    (f g : SetAssocCache.Line → SetAssocCache.Line)
    (hf : ∀ l, (f l).valid = l.valid ∧ (f l).tag = l.tag)
    (hg : ∀ l, (g l).valid = l.valid ∧ (g l).tag = l.tag) (j v : Nat) :
    ((((c.modLine i w f).modSet i (fun s => s.map g)).lineAt j v).valid = (c.lineAt j v).valid ∧
     (((c.modLine i w f).modSet i (fun s => s.map g)).lineAt j v).tag = (c.lineAt j v).tag) := by
  by_cases hj : j = i
  · subst hj
    by_cases hlen : j < c.data.length
    · have hset : (((c.modLine j w f).modSet j (fun s => s.map g)).data.getD j []) =
          (modN (c.data.getD j []) w f).map g := by
        unfold SetAssocCache.modSet SetAssocCache.modLine
        simp only
        rw [getD_modN_eq _ _ _ _ (by rw [modN_length]; exact hlen),
            getD_modN_eq _ _ _ _ hlen]
      by_cases hv : v < (c.data.getD j []).length
      · unfold SetAssocCache.lineAt
        rw [hset, getD_map_lt _ _ _ default _ (by rw [modN_length]; exact hv)]
        by_cases hvw : v = w
        · subst hvw
          rw [getD_modN_eq _ _ _ _ hv]
          exact ⟨(hg _).1.trans (hf _).1, (hg _).2.trans (hf _).2⟩
        · rw [getD_modN_ne _ _ _ _ _ (fun e => hvw e.symm)]
          exact ⟨(hg _).1, (hg _).2⟩
      · unfold SetAssocCache.lineAt
        rw [hset]
        rw [List.getD_eq_default _ _ (by rw [List.length_map, modN_length]; exact Nat.le_of_not_lt hv)]
        rw [List.getD_eq_default _ _ (Nat.le_of_not_lt hv)]
        exact ⟨rfl, rfl⟩
    · unfold SetAssocCache.modSet SetAssocCache.modLine SetAssocCache.lineAt
      simp only
      rw [getD_modN_oob _ _ _ (by rw [modN_length]; exact Nat.le_of_not_lt hlen),
          getD_modN_oob _ _ _ (Nat.le_of_not_lt hlen)]
      exact ⟨rfl, rfl⟩
  · unfold SetAssocCache.modSet SetAssocCache.modLine SetAssocCache.lineAt
    simp only
    rw [getD_modN_ne _ _ _ _ _ (fun e => hj e.symm),
        getD_modN_ne _ _ _ _ _ (fun e => hj e.symm)]
    exact ⟨rfl, rfl⟩

theorem touchLike_set_len (c : SetAssocCache) (i w : Nat)
    (f g : SetAssocCache.Line → SetAssocCache.Line) (j : Nat) :
    (((c.modLine i w f).modSet i (fun s => s.map g)).data.getD j []).length =
      (c.data.getD j []).length := by
  by_cases hj : j = i
  · subst hj
    by_cases hlen : j < c.data.length
    · unfold SetAssocCache.modSet SetAssocCache.modLine
      simp only
      rw [getD_modN_eq _ _ _ _ (by rw [modN_length]; exact hlen),
          getD_modN_eq _ _ _ _ hlen, List.length_map, modN_length]
    · unfold SetAssocCache.modSet SetAssocCache.modLine
      simp only
      rw [getD_modN_oob _ _ _ (by rw [modN_length]; exact Nat.le_of_not_lt hlen),
          getD_modN_oob _ _ _ (Nat.le_of_not_lt hlen)]
  · unfold SetAssocCache.modSet SetAssocCache.modLine
    simp only
    rw [getD_modN_ne _ _ _ _ _ (fun e => hj e.symm),
        getD_modN_ne _ _ _ _ _ (fun e => hj e.symm)]

theorem touch_weakens (c : SetAssocCache) (i w : Nat) : (c.touch i w).Weakens c := by
  refine ⟨rfl, rfl, rfl, rfl, ?_, ?_, ?_⟩
  · exact touch_data_length c i w
  · exact fun j => touchLike_set_len c i w _ _ j
  · intro j v
    have := touchLike_valid_tag c i w (fun l => { l with timer := 0 })
      (fun l => { l with timer := l.timer + 1 }) (fun l => ⟨rfl, rfl⟩) (fun l => ⟨rfl, rfl⟩) j v
    exact ⟨fun hv => this.1 ▸ hv, this.2⟩

theorem touchW_weakens (c : SetAssocCache) (i w : Nat) : (c.touchW i w).Weakens c := by
  refine ⟨rfl, rfl, rfl, rfl, ?_, ?_, ?_⟩
  · exact touchW_data_length c i w
  · exact fun j => touchLike_set_len c i w _ _ j
  · intro j v
    have := touchLike_valid_tag c i w (fun l => { l with dirty := true, timer := 0 })
      (fun l => { l with timer := l.timer + 1 }) (fun l => ⟨rfl, rfl⟩) (fun l => ⟨rfl, rfl⟩) j v
    exact ⟨fun hv => this.1 ▸ hv, this.2⟩

theorem modLine_invalid_weakens (c : SetAssocCache) (i w : Nat) :
    (c.modLine i w (fun l => { l with valid := false })).Weakens c := by
  refine ⟨rfl, rfl, rfl, rfl, modLine_data_length c i w _,
    fun j => modLine_set_len c i w _ j, ?_⟩
  intro j v
  by_cases hj : j = i
  · subst hj
    by_cases hlen : j < c.data.length
    · by_cases hv : v < (c.data.getD j []).length
      · by_cases hvw : v = w
        · subst hvw
          rw [modLine_lineAt_self c j v _ hlen hv]
          exact ⟨fun hcon => by simp at hcon, rfl⟩
        · rw [modLine_lineAt_other c j w _ v hvw]
          exact ⟨id, rfl⟩
      · unfold SetAssocCache.lineAt
        rw [List.getD_eq_default _ _ (by rw [modLine_set_len]; exact Nat.le_of_not_lt hv),
            List.getD_eq_default _ _ (Nat.le_of_not_lt hv)]
        exact ⟨id, rfl⟩
    · unfold SetAssocCache.modLine SetAssocCache.lineAt
      simp only
      rw [getD_modN_oob _ _ _ (Nat.le_of_not_lt hlen)]
      exact ⟨id, rfl⟩
  · rw [modLine_lineAt_otherSet c i w _ j v hj]
    exact ⟨id, rfl⟩

theorem tagsUnique_of_weakens {c' c : SetAssocCache} (hw : c'.Weakens c)
    (h : c.tagsUnique) : c'.tagsUnique := by
  obtain ⟨_, _, _, _, hdlen, hslen, hpt⟩ := hw
  intro i hi w1 hw1 w2 hw2 hne hv1 hv2
  rw [(hpt i w1).2, (hpt i w2).2]
  exact h i (hdlen ▸ hi) w1 (hslen i ▸ hw1) w2 (hslen i ▸ hw2) hne
    ((hpt i w1).1 hv1) ((hpt i w2).1 hv2)

theorem getD_replicate (m n : Nat) (a d : α) (h : n < m) :
    (List.replicate m a).getD n d = a := by
  induction m generalizing n with
  | zero => simp at h
  | succ m ih =>
    cases n with
    | zero => rfl
    | succ n =>
      simp only [List.replicate, List.getD_cons_succ]
      exact ih n (by omega)

/-- `_swap_in` on a miss preserves tag uniqueness: the new line's tag was held
by no valid line of the set (that is what the miss means), eviction only clears
a valid bit, and other sets are untouched. -/
theorem swap_in_tagsUnique (c cm : SetAssocCache) (tag idx way : Nat) (trm : List Ev)
    (hTU : c.tagsUnique)
    (hmiss : firstIdx? (fun l => l.valid && l.tag == tag) (c.data.getD idx []) = none)
    (h : c.swap_in tag idx = .ok cm trm way) : cm.tagsUnique := by
  obtain ⟨hidx, hwlt, hphys, hsize, hassoc, hbs, hdlen, hslen', hsets, hlines, hline⟩ :=
    swap_in_ok_effect _ _ _ _ _ _ h
  have hmiss' : ∀ w, w < (c.data.getD idx []).length → (c.lineAt idx w).valid = true →
      (c.lineAt idx w).tag ≠ tag := by
    intro w hw hv
    have hp := firstIdx?_none _ _ hmiss ((c.data.getD idx []).getD w default)
      (getD_mem _ _ _ hw)
    have hbeq : (((c.data.getD idx []).getD w default).tag == tag) = false := by
      revert hp
      unfold SetAssocCache.lineAt at hv
      rw [hv]
      cases hres : (((c.data.getD idx []).getD w default).tag == tag) <;> simp
    intro hcon
    unfold SetAssocCache.lineAt at hcon
    rw [hcon] at hbeq
    simp at hbeq
  intro i hi w1 hw1 w2 hw2 hne hv1 hv2
  by_cases hii : i = idx
  · subst hii
    have hb1 : w1 < (c.data.getD i []).length := by rw [← hslen']; exact hw1
    have hb2 : w2 < (c.data.getD i []).length := by rw [← hslen']; exact hw2
    by_cases h1 : w1 = way
    · have h2 : w2 ≠ way := fun e => hne (h1.trans e.symm)
      rw [h1, hline, hlines w2 h2]
      rw [hlines w2 h2] at hv2
      dsimp only
      intro e
      exact hmiss' w2 hb2 hv2 e.symm
    · by_cases h2 : w2 = way
      · rw [h2, hline, hlines w1 h1]
        rw [hlines w1 h1] at hv1
        dsimp only
        intro e
        exact hmiss' w1 hb1 hv1 e
      · rw [hlines w1 h1, hlines w2 h2]
        rw [hlines w1 h1] at hv1
        rw [hlines w2 h2] at hv2
        exact hTU i hidx w1 hb1 w2 hb2 hne hv1 hv2
  · have hl : ∀ w, cm.lineAt i w = c.lineAt i w := by
      intro w
      unfold SetAssocCache.lineAt
      rw [hsets i hii]
    have hblen : (cm.data.getD i []).length = (c.data.getD i []).length := by
      rw [hsets i hii]
    rw [hl w1, hl w2]
    rw [hl w1] at hv1
    rw [hl w2] at hv2
    exact hTU i (hdlen ▸ hi) w1 (hblen ▸ hw1) w2 (hblen ▸ hw2) hne hv1 hv2

theorem invalStep_ok_weakens (c c1 : SetAssocCache) (a : Nat) (tr : List Ev)
    (h : c.invalStep a = .ok c1 tr ()) : c1.Weakens c := by
  unfold SetAssocCache.invalStep at h
  dsimp only at h
  split at h
  case h_1 way hfind =>
    obtain ⟨_, _, _, hc1, _⟩ := swap_out_ok_char _ _ _ _ _ h
    subst hc1
    exact modLine_invalid_weakens c _ way
  case h_2 => cases h; exact weakens_refl c

theorem invalLoop_ok_weakens (addrs : List Nat) (c c' : SetAssocCache) (tr : List Ev)
    (h : c.invalLoop addrs = .ok c' tr ()) : c'.Weakens c := by
  induction addrs generalizing c tr with
  | nil =>
    unfold SetAssocCache.invalLoop at h
    cases h
    exact weakens_refl _
  | cons a rest ih =>
    unfold SetAssocCache.invalLoop at h
    split at h
    case h_1 c1 tr1 u hstep =>
      split at h
      case h_1 c2 tr2 u2 hloop =>
        cases h
        exact weakens_trans (ih _ _ hloop) (invalStep_ok_weakens _ _ _ _ hstep)
      case h_2 => cases h
    case h_2 => cases h

/-- C8. Cache tag uniqueness: it holds after construction, and every completed
`read`, `write` or `invalidate` preserves it. -/
theorem c8_cache_tag_uniqueness :
    (∀ (pm : PhysicalMemory) (sz assoc : Nat) (c : SetAssocCache),
       SetAssocCache.build pm sz assoc = .ok c → c.tagsUnique) ∧
    (∀ (c c' : SetAssocCache) (addr : Nat) (tr : List Ev),
       c.tagsUnique → c.read addr = .ok c' tr () → c'.tagsUnique) ∧
    (∀ (c c' : SetAssocCache) (addr : Nat) (tr : List Ev),
       c.tagsUnique → c.write addr = .ok c' tr () → c'.tagsUnique) ∧
    (∀ (c c' : SetAssocCache) (b e : Nat) (tr : List Ev),
       c.tagsUnique → c.invalidate b e = .ok c' tr () → c'.tagsUnique) := by
  refine ⟨?_, ?_, ?_, ?_⟩
  · intro pm sz assoc c h
    unfold SetAssocCache.build at h
    split at h
    case isFalse => cases h
    case isTrue hdiv =>
      cases h
      intro i hi w1 hw1 w2 hw2 hne hv1 hv2
      exfalso
      simp only [List.length_replicate] at hi
      unfold SetAssocCache.lineAt at hv1
      simp only at hv1 hw1
      rw [getD_replicate _ _ _ _ hi] at hv1 hw1
      simp only [List.length_replicate] at hw1
      rw [getD_replicate _ _ _ _ hw1] at hv1
      simp at hv1
  · intro c c' addr tr hTU hok
    obtain ⟨haddr, hcase⟩ := read_ok_char c c' addr tr hok
    rcases hcase with ⟨way, hfind, rfl, htr⟩ | ⟨hfind, cm, trm, way, hsi, rfl, htr⟩
    · exact tagsUnique_of_weakens (touch_weakens c _ way) hTU
    · exact tagsUnique_of_weakens (touch_weakens cm _ way)
        (swap_in_tagsUnique c cm _ _ way trm hTU hfind hsi)
  · intro c c' addr tr hTU hok
    obtain ⟨haddr, hcase⟩ := write_ok_char c c' addr tr hok
    rcases hcase with ⟨way, hfind, rfl, htr⟩ | ⟨hfind, cm, trm, way, hsi, rfl, htr⟩
    · exact tagsUnique_of_weakens (touchW_weakens c _ way) hTU
    · exact tagsUnique_of_weakens (touchW_weakens cm _ way)
        (swap_in_tagsUnique c cm _ _ way trm hTU hfind hsi)
  · intro c c' b e tr hTU hok
    exact tagsUnique_of_weakens (invalLoop_ok_weakens _ c c' tr hok) hTU

/-- Witness for C8: construction of the small cache, the miss read at 0, the
hit write at 0 on the resulting state, and a range invalidation. -/
theorem c8_witness :
    cache0.tagsUnique ∧ cache1.tagsUnique ∧
    (cache1.write 0).stateOf.tagsUnique ∧
    (cache1.invalidate 0 16).stateOf.tagsUnique :=
  ⟨c8_cache_tag_uniqueness.1 pm0 8 1 cache0 (by rfl),
   c8_cache_tag_uniqueness.2.1 cache0 cache1 0 (cache0.read 0).traceOf
     (by decide) (by decide),
   c8_cache_tag_uniqueness.2.2.1 cache1 (cache1.write 0).stateOf 0 (cache1.write 0).traceOf
     (by decide) (by decide),
   c8_cache_tag_uniqueness.2.2.2 cache1 (cache1.invalidate 0 16).stateOf 0 16
     (cache1.invalidate 0 16).traceOf (by decide) (by decide)⟩

/-! ## Claim C5: frame-pool partition invariant -/

/-- Keys of the page table, in insertion order. -/
def VirtualMemory.ptKeys (vm : VirtualMemory) : List Nat := vm.page_table.map (fun p => p.1)

/-- Frames mapped by page-table entries, in insertion order. -/
def VirtualMemory.mappedFrames (vm : VirtualMemory) : List Nat :=
  vm.page_table.map (fun p => p.2.physical)

/-- Representation invariants that Python's `dict`, `set` and the LRU deque
discipline provide by construction: unique dict keys, duplicate-free free-frame
set, duplicate-free LRU queue whose members are resident pages. -/
def VirtualMemory.Rep (vm : VirtualMemory) : Prop :=
  vm.ptKeys.Nodup ∧ vm.frame_set.Nodup ∧ vm.lru_queue.Nodup ∧
  (∀ p ∈ vm.lru_queue, p ∈ vm.ptKeys)

/-- The claim's partition invariant: mapped frames are pairwise distinct,
disjoint from the free-frame set, and together with it exactly cover the frame
range. -/
def VirtualMemory.FramePartition (vm : VirtualMemory) : Prop :=
  vm.mappedFrames.Nodup ∧
  (∀ f ∈ vm.mappedFrames, f ∉ vm.frame_set) ∧
  (∀ f ∈ vm.mappedFrames, f < vm.numFrames) ∧
  (∀ f ∈ vm.frame_set, f < vm.numFrames) ∧
  (∀ f, f < vm.numFrames → f ∈ vm.mappedFrames ∨ f ∈ vm.frame_set)

instance (vm : VirtualMemory) : Decidable vm.Rep := by
  unfold VirtualMemory.Rep; infer_instance

instance (vm : VirtualMemory) : Decidable vm.FramePartition := by
  unfold VirtualMemory.FramePartition; infer_instance

theorem ptLookup_none_iff (t : List (Nat × VirtualMemory.Page)) (k : Nat) :
    ptLookup t k = none ↔ ∀ p ∈ t, p.1 ≠ k := by
  induction t with
  | nil => simp [ptLookup]
  | cons p t ih =>
    unfold ptLookup
    by_cases hp : p.1 = k
    · simp [hp]
    · rw [if_neg (by simpa using hp)]
      rw [ih]
      constructor
      · intro hall q hq
        rcases List.mem_cons.mp hq with rfl | hq
        · exact hp
        · exact hall q hq
      · intro hall q hq
        exact hall q (List.mem_cons_of_mem p hq)

theorem ptLookup_some_mem (t : List (Nat × VirtualMemory.Page)) (k : Nat)
    (pg : VirtualMemory.Page) (h : ptLookup t k = some pg) : (k, pg) ∈ t := by
  induction t with
  | nil => simp [ptLookup] at h
  | cons p t ih =>
    unfold ptLookup at h
    split at h
    · rename_i hp
      cases h
      have hk : p.1 = k := by simpa using hp
      have hpr : (k, p.2) = p := by rw [← hk]
      rw [hpr]
      exact List.mem_cons_self p t
    · exact List.mem_cons_of_mem p (ih h)

theorem ptLookup_isSome_mem_keys (t : List (Nat × VirtualMemory.Page)) (k : Nat)
    (h : (ptLookup t k).isSome = true) : k ∈ t.map (fun p => p.1) := by
  cases hlk : ptLookup t k with
  | none => rw [hlk] at h; simp at h
  | some pg =>
    have := ptLookup_some_mem t k pg hlk
    exact List.mem_map.mpr ⟨(k, pg), this, rfl⟩

theorem ptLookup_append_of_none (t1 t2 : List (Nat × VirtualMemory.Page)) (k : Nat)
    (h : ptLookup t1 k = none) : ptLookup (t1 ++ t2) k = ptLookup t2 k := by
  induction t1 with
  | nil => rfl
  | cons p t ih =>
    unfold ptLookup at h
    split at h
    · cases h
    · rename_i hp
      rw [List.cons_append]
      show (if p.1 == k then some p.2 else ptLookup (t ++ t2) k) = ptLookup t2 k
      rw [if_neg (by simpa using hp)]
      exact ih h

theorem ptLookup_append_of_some (t1 t2 : List (Nat × VirtualMemory.Page)) (k : Nat)
    (pg : VirtualMemory.Page) (h : ptLookup t1 k = some pg) :
    ptLookup (t1 ++ t2) k = some pg := by
  induction t1 with
  | nil => simp [ptLookup] at h
  | cons p t ih =>
    unfold ptLookup at h
    rw [List.cons_append]
    show (if p.1 == k then some p.2 else ptLookup (t ++ t2) k) = some pg
    split at h
    · rename_i hp
      rw [if_pos hp]
      exact h
    · rename_i hp
      rw [if_neg hp]
      exact ih h

theorem ptUpdate_cons (p : Nat × VirtualMemory.Page) (t : List (Nat × VirtualMemory.Page))
    (k : Nat) (f : VirtualMemory.Page → VirtualMemory.Page) :
    ptUpdate (p :: t) k f = (if p.1 == k then (p.1, f p.2) else p) :: ptUpdate t k f := rfl

theorem ptRemove_cons (p : Nat × VirtualMemory.Page) (t : List (Nat × VirtualMemory.Page))
    (k : Nat) :
    ptRemove (p :: t) k = if p.1 != k then p :: ptRemove t k else ptRemove t k := by
  unfold ptRemove
  rw [List.filter_cons]

/-- `setdefault`-then-assign on a freshly appended key: when `k` is not a key
of `t`, updating `t ++ [(k, e)]` at `k` rewrites just the appended pair. -/
theorem ptUpdate_append_fresh (t : List (Nat × VirtualMemory.Page)) (k : Nat)
    (e : VirtualMemory.Page) (f : VirtualMemory.Page → VirtualMemory.Page)
    (h : ∀ p ∈ t, p.1 ≠ k) :
    ptUpdate (t ++ [(k, e)]) k f = t ++ [(k, f e)] := by
  induction t with
  | nil => simp [ptUpdate]
  | cons p t ih =>
    rw [List.cons_append, ptUpdate_cons]
    rw [if_neg (by simpa using h p (List.mem_cons_self p t))]
    rw [List.cons_append]
    rw [ih (fun q hq => h q (List.mem_cons_of_mem p hq))]

theorem ptUpdate_keys (t : List (Nat × VirtualMemory.Page)) (k : Nat)
    (f : VirtualMemory.Page → VirtualMemory.Page) :
    (ptUpdate t k f).map (fun p => p.1) = t.map (fun p => p.1) := by
  induction t with
  | nil => rfl
  | cons p t ih =>
    rw [ptUpdate_cons, List.map_cons, List.map_cons, ih]
    by_cases hp : (p.1 == k) = true
    · rw [if_pos hp]
    · rw [if_neg hp]

theorem ptUpdate_mapped_of_physical (t : List (Nat × VirtualMemory.Page)) (k : Nat)
    (f : VirtualMemory.Page → VirtualMemory.Page)
    (hf : ∀ pg, (f pg).physical = pg.physical) :
    (ptUpdate t k f).map (fun p => p.2.physical) = t.map (fun p => p.2.physical) := by
  induction t with
  | nil => rfl
  | cons p t ih =>
    rw [ptUpdate_cons, List.map_cons, List.map_cons, ih]
    by_cases hp : (p.1 == k) = true
    · rw [if_pos hp]
      rw [show ((p.1, f p.2) : Nat × VirtualMemory.Page).2.physical = (f p.2).physical from rfl]
      rw [hf p.2]
    · rw [if_neg hp]

theorem ptRemove_of_not_mem (t : List (Nat × VirtualMemory.Page)) (k : Nat)
    (h : ∀ p ∈ t, p.1 ≠ k) : ptRemove t k = t := by
  induction t with
  | nil => rfl
  | cons p t ih =>
    rw [ptRemove_cons]
    rw [if_pos (by simpa using h p (List.mem_cons_self p t))]
    rw [ih (fun q hq => h q (List.mem_cons_of_mem p hq))]

theorem ptRemove_append (t1 t2 : List (Nat × VirtualMemory.Page)) (k : Nat) :
    ptRemove (t1 ++ t2) k = ptRemove t1 k ++ ptRemove t2 k := by
  unfold ptRemove
  rw [List.filter_append]

theorem ptRemove_keys (t : List (Nat × VirtualMemory.Page)) (k : Nat) :
    (ptRemove t k).map (fun p => p.1) = (t.map (fun p => p.1)).filter (fun x => x != k) := by
  induction t with
  | nil => rfl
  | cons p t ih =>
    rw [ptRemove_cons, List.map_cons, List.filter_cons]
    by_cases hp : (p.1 != k) = true
    · rw [if_pos hp, if_pos hp, List.map_cons, ih]
    · rw [if_neg hp, if_neg hp, ih]

/-- Removing a present key (unique keys) moves its frame out of the mapped
multiset: the original mapped frames are a permutation of the removed entry's
frame consed onto the remainder's mapped frames. -/
theorem mapped_remove_perm (t : List (Nat × VirtualMemory.Page)) (v : Nat)
    (pg : VirtualMemory.Page) (hnd : (t.map (fun p => p.1)).Nodup)
    (hlk : ptLookup t v = some pg) :
    (t.map (fun p => p.2.physical)).Perm
      (pg.physical :: (ptRemove t v).map (fun p => p.2.physical)) := by
  induction t with
  | nil => simp [ptLookup] at hlk
  | cons p t ih =>
    unfold ptLookup at hlk
    rw [List.map_cons, List.nodup_cons] at hnd
    split at hlk
    · rename_i hp
      cases hlk
      have hk : p.1 = v := by simpa using hp
      have hrest : ptRemove t v = t := ptRemove_of_not_mem t v (by
        intro q hq hcon
        exact hnd.1 ((hcon.trans hk.symm) ▸ List.mem_map.mpr ⟨q, hq, rfl⟩))
      rw [ptRemove_cons, if_neg (by simp [hk]), hrest, List.map_cons]
    · rename_i hp
      have hpv : ¬ p.1 = v := by simpa using hp
      rw [ptRemove_cons, if_pos (by simpa using hpv), List.map_cons, List.map_cons]
      exact List.Perm.trans (List.Perm.cons _ (ih hnd.2 hlk)) (List.Perm.swap _ _ _)

/-- Structural characterization of a completed `VirtualMemory._swap_out`. -/
theorem vm_swap_out_ok_char (vm vm' : VirtualMemory) (v : Nat) (tr : List Ev)
    (h : vm.swap_out v = .ok vm' tr ()) :
    v < vm.numPages ∧
    ∃ line trI, ptLookup vm.page_table v = some line ∧
      vm.main_mem.invalidate (line.physical * vm.page_size) ((line.physical + 1) * vm.page_size)
        = .ok vm'.main_mem trI () ∧
      vm'.page_table = ptRemove vm.page_table v ∧
      vm'.frame_set = (if line.physical ∈ vm.frame_set then vm.frame_set
                       else vm.frame_set ++ [line.physical]) ∧
      v ∈ vm.lru_queue ∧ vm'.lru_queue = vm.lru_queue.erase v ∧
      vm'.size = vm.size ∧ vm'.page_size = vm.page_size ∧
      tr = [.vmInvalidatePageCache] ++ trI ++
           (if line.dirty then [Ev.vmWriteBackToSecondary v] else []) := by
  unfold VirtualMemory.swap_out at h
  split at h
  case isFalse => cases h
  case isTrue hv =>
    split at h
    case h_1 => cases h
    case h_2 line hlk =>
      split at h
      case h_1 => cases h
      case h_2 c' trI u hinv =>
        dsimp only at h
        cases hdq : dequeRemove vm.lru_queue v with
        | error e =>
          rw [hdq] at h
          cases h
        | ok q =>
          rw [hdq] at h
          cases h
          unfold dequeRemove at hdq
          split at hdq
          case isFalse => cases hdq
          case isTrue hmem =>
            cases hdq
            exact ⟨hv, line, trI, hlk, hinv, rfl, rfl, hmem, rfl, rfl, rfl, rfl⟩

/-- Structural characterization of a completed `VirtualMemory._swap_in`. -/
theorem vm_swap_in_ok_char (vm vm' : VirtualMemory) (page : Nat) (sw : Option Nat)
    (tr : List Ev) (h : vm.swap_in page = .ok vm' tr sw) :
    page < vm.numPages ∧ ptLookup vm.page_table page = none ∧
    ((∃ f rest, sw = none ∧ vm.frame_set = f :: rest ∧
        vm'.page_table = ptUpdate (vm.page_table ++ [(page, { physical := 0, dirty := false })])
          page (fun p => { p with physical := f }) ∧
        vm'.frame_set = rest ∧ vm'.lru_queue = vm.lru_queue ++ [page] ∧
        vm'.main_mem = vm.main_mem ∧ vm'.size = vm.size ∧ vm'.page_size = vm.page_size ∧
        tr = [Ev.vmLoadPage page]) ∨
     (∃ victim vm2 tr2 f rest, vm.frame_set = [] ∧ vm.lru_queue.head? = some victim ∧
        sw = some victim ∧
        VirtualMemory.swap_out { vm with page_table :=
          vm.page_table ++ [(page, { physical := 0, dirty := false })] } victim
          = .ok vm2 tr2 () ∧
        vm2.frame_set = f :: rest ∧
        vm'.page_table = ptUpdate vm2.page_table page (fun p => { p with physical := f }) ∧
        vm'.frame_set = rest ∧ vm'.lru_queue = vm2.lru_queue ++ [page] ∧
        vm'.main_mem = vm2.main_mem ∧ vm'.size = vm2.size ∧ vm'.page_size = vm2.page_size ∧
        tr = [Ev.vmMainFull] ++ tr2 ++ [Ev.vmLoadPage page])) := by
  unfold VirtualMemory.swap_in at h
  split at h
  case isFalse => cases h
  case isTrue hp =>
    split at h
    case isFalse => cases h
    case isTrue hlkn =>
      have hlkn' : ptLookup vm.page_table page = none := by
        cases hlk : ptLookup vm.page_table page with
        | none => rfl
        | some pg => rw [hlk] at hlkn; simp at hlkn
      dsimp only at h
      split at h
      case isTrue hempty =>
        split at h
        case h_1 => cases h
        case h_2 victim hhead =>
          split at h
          case h_1 => cases h
          case h_2 vm2 tr2 u hso =>
            unfold VirtualMemory.swap_in_fill at h
            split at h
            case h_1 => cases h
            case h_2 f rest hfs =>
              cases h
              refine ⟨hp, hlkn', .inr ⟨victim, vm2, tr2, f, rest, ?_, hhead, rfl, hso, hfs,
                rfl, rfl, rfl, rfl, rfl, rfl, rfl⟩⟩
              cases hfse : vm.frame_set with
              | nil => rfl
              | cons a l => rw [hfse] at hempty; simp [List.isEmpty] at hempty
      case isFalse hempty =>
        unfold VirtualMemory.swap_in_fill at h
        split at h
        case h_1 => cases h
        case h_2 f rest hfs =>
          cases h
          exact ⟨hp, hlkn', .inl ⟨f, rest, rfl, hfs, rfl, rfl, rfl, rfl, rfl, rfl, rfl⟩⟩

theorem nodup_append_singleton {l : List α} {a : α} (hnd : l.Nodup) (ha : a ∉ l) :
    (l ++ [a]).Nodup := by
  induction l with
  | nil => simp
  | cons b l ih =>
    rw [List.cons_append, List.nodup_cons]
    rw [List.nodup_cons] at hnd
    refine ⟨?_, ih hnd.2 (fun h => ha (List.mem_cons_of_mem b h))⟩
    intro hb
    rcases List.mem_append.mp hb with hb | hb
    · exact hnd.1 hb
    · rcases List.mem_singleton.mp hb with rfl
      exact ha (List.mem_cons_self b l)

theorem mem_of_head? {l : List α} {a : α} (h : l.head? = some a) : a ∈ l := by
  cases l with
  | nil => simp at h
  | cons b l =>
    simp only [List.head?_cons, Option.some.injEq] at h
    rw [← h]
    exact List.mem_cons_self b l

theorem ptLookup_of_mem_keys (t : List (Nat × VirtualMemory.Page)) (k : Nat)
    (h : k ∈ t.map (fun p => p.1)) : ∃ pg, ptLookup t k = some pg := by
  induction t with
  | nil => simp at h
  | cons p t ih =>
    unfold ptLookup
    by_cases hp : (p.1 == k) = true
    · exact ⟨p.2, by rw [if_pos hp]⟩
    · rw [if_neg hp]
      apply ih
      rw [List.map_cons, List.mem_cons] at h
      rcases h with h | h
      · exact absurd (by simpa using h.symm) hp
      · exact h

theorem invalidate_ok_weakens (c c' : SetAssocCache) (b e : Nat) (tr : List Ev)
    (h : c.invalidate b e = .ok c' tr ()) : c'.Weakens c := by
  unfold SetAssocCache.invalidate at h
  exact invalLoop_ok_weakens _ _ _ _ h

/-- Effect of a completed `VirtualMemory._swap_in` on the bookkeeping state:
the representation and partition invariants are preserved, and the geometry is
unchanged. -/
theorem vm_swap_in_partition (vm vm' : VirtualMemory) (page : Nat) (sw : Option Nat)
    (tr : List Ev) (hRep : vm.Rep) (hFP : vm.FramePartition)
    (h : vm.swap_in page = .ok vm' tr sw) :
    vm'.Rep ∧ vm'.FramePartition ∧ vm'.size = vm.size ∧ vm'.page_size = vm.page_size ∧
    vm'.main_mem.physical = vm.main_mem.physical := by
  obtain ⟨hkND, hfsND, hlruND, hlruSub⟩ := hRep
  obtain ⟨hmND, hdisj, hmB, hfB, hcov⟩ := hFP
  obtain ⟨hp, hlkn, hcase⟩ := vm_swap_in_ok_char _ _ _ _ _ h
  have hpk : page ∉ vm.page_table.map (fun p => p.1) := by
    intro hmem
    obtain ⟨pg, hpg⟩ := ptLookup_of_mem_keys _ _ hmem
    rw [hpg] at hlkn
    cases hlkn
  rcases hcase with ⟨f, rest, hsw, hfs, hpt, hfs', hlru', hmm, hsz, hps, htr⟩ |
    ⟨victim, vm2, tr2, f, rest, hfs0, hhead, hsw, hso, hfs2, hpt, hfs', hlru', hmm, hsz2, hps2, htr⟩
  · -- a free frame was available
    have hfresh : ∀ q ∈ vm.page_table, q.1 ≠ page := by
      intro q hq hc
      apply hpk
      rw [← hc]
      exact List.mem_map.mpr ⟨q, hq, rfl⟩
    have hptc : vm'.page_table = vm.page_table ++ [(page, { physical := f, dirty := false })] := by
      rw [hpt, ptUpdate_append_fresh _ _ _ _ hfresh]
    have hfmem : f ∈ vm.frame_set := by rw [hfs]; exact List.mem_cons_self f rest
    have hfnm : f ∉ vm.mappedFrames := fun hc => hdisj f hc hfmem
    have hnum : vm'.numFrames = vm.numFrames := by
      unfold VirtualMemory.numFrames
      rw [hmm, hps]
    refine ⟨⟨?_, ?_, ?_, ?_⟩, ⟨?_, ?_, ?_, ?_, ?_⟩, hsz, hps, by rw [hmm]⟩
    · unfold VirtualMemory.ptKeys
      rw [hptc, List.map_append]
      exact nodup_append_singleton hkND hpk
    · rw [hfs']
      rw [hfs] at hfsND
      exact (List.nodup_cons.mp hfsND).2
    · rw [hlru']
      exact nodup_append_singleton hlruND (fun hc => hpk (hlruSub page hc))
    · intro p hp'
      rw [hlru'] at hp'
      unfold VirtualMemory.ptKeys
      rw [hptc, List.map_append]
      rcases List.mem_append.mp hp' with hp' | hp'
      · exact List.mem_append.mpr (.inl (hlruSub p hp'))
      · exact List.mem_append.mpr (.inr (by simpa using hp'))
    · unfold VirtualMemory.mappedFrames
      rw [hptc, List.map_append]
      exact nodup_append_singleton hmND hfnm
    · intro g hg
      unfold VirtualMemory.mappedFrames at hg
      rw [hptc, List.map_append] at hg
      rw [hfs']
      rw [hfs] at hfsND hdisj
      rcases List.mem_append.mp hg with hg | hg
      · intro hc
        exact hdisj g hg (List.mem_cons_of_mem f hc)
      · have : g = f := by simpa using hg
        rw [this]
        exact (List.nodup_cons.mp hfsND).1
    · intro g hg
      rw [hnum]
      unfold VirtualMemory.mappedFrames at hg
      rw [hptc, List.map_append] at hg
      rcases List.mem_append.mp hg with hg | hg
      · exact hmB g hg
      · have : g = f := by simpa using hg
        rw [this]
        exact hfB f hfmem
    · intro g hg
      rw [hnum]
      rw [hfs'] at hg
      exact hfB g (by rw [hfs]; exact List.mem_cons_of_mem f hg)
    · intro g hg
      rw [hnum] at hg
      unfold VirtualMemory.mappedFrames
      rw [hptc, List.map_append]
      rcases hcov g hg with hc | hc
      · exact .inl (List.mem_append.mpr (.inl hc))
      · rw [hfs] at hc
        rcases List.mem_cons.mp hc with rfl | hc
        · exact .inl (List.mem_append.mpr (.inr (by simp)))
        · exact .inr (by rw [hfs']; exact hc)
  · -- main memory was full: the LRU victim page was evicted first
    have hvk : victim ∈ vm.page_table.map (fun p => p.1) :=
      hlruSub victim (mem_of_head? hhead)
    have hvp : victim ≠ page := fun e => hpk (e ▸ hvk)
    obtain ⟨pgv, hpgv⟩ := ptLookup_of_mem_keys _ _ hvk
    obtain ⟨hv2, line, trI, hlk2, hinv2, hpt2, hfs2', hvmem, hlru2, hsz3, hps3, htr2⟩ :=
      vm_swap_out_ok_char _ _ _ _ hso
    dsimp only at hlk2 hinv2 hpt2 hfs2' hvmem hlru2 hsz3 hps3
    have hline : line = pgv := by
      rw [ptLookup_append_of_some _ _ _ _ hpgv] at hlk2
      injection hlk2 with hl
      exact hl.symm
    rw [hline] at hinv2 hfs2'
    rw [hfs0] at hfs2'
    rw [if_neg (List.not_mem_nil _), List.nil_append] at hfs2'
    rw [hfs2'] at hfs2
    have hf : f = pgv.physical := by
      injection hfs2 with h1 h2
      exact h1.symm
    have hrest : rest = [] := by
      injection hfs2 with h1 h2
      exact h2.symm
    have hfresh : ∀ q ∈ ptRemove vm.page_table victim, q.1 ≠ page := by
      intro q hq hc
      apply hpk
      rw [← hc]
      exact List.mem_map.mpr ⟨q, List.mem_of_mem_filter hq, rfl⟩
    have hpt2c : vm2.page_table =
        ptRemove vm.page_table victim ++ [(page, { physical := 0, dirty := false })] := by
      rw [hpt2, ptRemove_append, ptRemove_cons,
        if_pos (by simpa using Ne.symm hvp)]
      rfl
    have hptc : vm'.page_table =
        ptRemove vm.page_table victim ++ [(page, { physical := pgv.physical, dirty := false })] := by
      rw [hpt, hpt2c, ptUpdate_append_fresh _ _ _ _ hfresh, hf]
    have hmperm : vm.mappedFrames.Perm
        (pgv.physical :: (ptRemove vm.page_table victim).map (fun p => p.2.physical)) :=
      mapped_remove_perm _ _ _ hkND hpgv
    have hconsND : (pgv.physical :: (ptRemove vm.page_table victim).map
        (fun p => p.2.physical)).Nodup := hmperm.nodup hmND
    have hremND := (List.nodup_cons.mp hconsND).2
    have hnotin := (List.nodup_cons.mp hconsND).1
    have hpgvB : pgv.physical < vm.numFrames := by
      apply hmB
      rw [hmperm.mem_iff]
      exact List.mem_cons_self _ _
    have hweak : vm2.main_mem.Weakens vm.main_mem := by
      unfold SetAssocCache.invalidate at hinv2
      exact invalLoop_ok_weakens _ _ _ _ hinv2
    have hnum : vm'.numFrames = vm.numFrames := by
      unfold VirtualMemory.numFrames
      rw [hmm, hps2, hps3, hweak.1]
    refine ⟨⟨?_, ?_, ?_, ?_⟩, ⟨?_, ?_, ?_, ?_, ?_⟩, by rw [hsz2, hsz3], by rw [hps2, hps3],
      by rw [hmm, hweak.1]⟩
    · unfold VirtualMemory.ptKeys
      rw [hptc, List.map_append, ptRemove_keys]
      refine nodup_append_singleton (hkND.filter _) ?_
      intro hc
      exact hpk (List.mem_of_mem_filter hc)
    · rw [hfs', hrest]
      exact List.nodup_nil
    · rw [hlru', hlru2]
      refine nodup_append_singleton (hlruND.erase victim) ?_
      intro hc
      exact hpk (hlruSub page (List.mem_of_mem_erase hc))
    · intro p hp'
      rw [hlru', hlru2] at hp'
      unfold VirtualMemory.ptKeys
      rw [hptc, List.map_append, ptRemove_keys]
      rcases List.mem_append.mp hp' with hp' | hp'
      · have hpv' : p ≠ victim ∧ p ∈ vm.lru_queue := (hlruND.mem_erase_iff).mp hp'
        refine List.mem_append.mpr (.inl (List.mem_filter.mpr ⟨hlruSub p hpv'.2, ?_⟩))
        simpa using hpv'.1
      · exact List.mem_append.mpr (.inr (by simpa using hp'))
    · unfold VirtualMemory.mappedFrames
      rw [hptc, List.map_append]
      exact nodup_append_singleton hremND hnotin
    · intro g hg hc
      rw [hfs', hrest] at hc
      simp at hc
    · intro g hg
      rw [hnum]
      unfold VirtualMemory.mappedFrames at hg
      rw [hptc, List.map_append] at hg
      rcases List.mem_append.mp hg with hg | hg
      · apply hmB
        rw [hmperm.mem_iff]
        exact List.mem_cons_of_mem _ hg
      · have : g = pgv.physical := by simpa using hg
        rw [this]
        exact hpgvB
    · intro g hg
      rw [hfs', hrest] at hg
      simp at hg
    · intro g hg
      rw [hnum] at hg
      unfold VirtualMemory.mappedFrames
      rw [hptc, List.map_append]
      left
      rcases hcov g hg with hc | hc
      · rw [hmperm.mem_iff] at hc
        rcases List.mem_cons.mp hc with rfl | hc
        · exact List.mem_append.mpr (.inr (by simp))
        · exact List.mem_append.mpr (.inl hc)
      · rw [hfs0] at hc
        simp at hc

theorem read_fin_ok_char (vm vm' : VirtualMemory) (page page_addr : Nat)
    (tr0 tr : List Ev) (h : vm.read_fin page page_addr tr0 = .ok vm' tr ()) :
    ∃ line c' trc, ptLookup vm.page_table page = some line ∧
      vm.main_mem.read (line.physical * vm.page_size + page_addr) = .ok c' trc () ∧
      vm' = { vm with main_mem := c' } ∧ tr = tr0 ++ trc := by
  unfold VirtualMemory.read_fin at h
  split at h
  case h_1 => cases h
  case h_2 line hlk =>
    split at h
    case h_2 => cases h
    case h_1 c' trc u hrd =>
      cases h
      exact ⟨line, c', trc, hlk, hrd, rfl, rfl⟩

theorem write_fin_ok_char (vm vm' : VirtualMemory) (page page_addr : Nat)
    (tr0 tr : List Ev) (h : vm.write_fin page page_addr tr0 = .ok vm' tr ()) :
    ∃ line c' trc, ptLookup vm.page_table page = some line ∧
      vm.main_mem.write (line.physical * vm.page_size + page_addr) = .ok c' trc () ∧
      vm' = { vm with main_mem := c',
                      page_table := ptUpdate vm.page_table page
                        (fun p => { p with dirty := true }) } ∧ tr = tr0 ++ trc := by
  unfold VirtualMemory.write_fin at h
  split at h
  case h_1 => cases h
  case h_2 line hlk =>
    split at h
    case h_2 => cases h
    case h_1 c' trc u hwr =>
      cases h
      exact ⟨line, c', trc, hlk, hwr, rfl, rfl⟩

/-- A completed `VirtualMemory.read` is a resident-path LRU refresh or a fault
swap-in, followed by the translate-and-read tail on the intermediate state. -/
theorem vm_read_ok_char (vm vm' : VirtualMemory) (addr : Nat) (tr : List Ev)
    (h : vm.read addr = .ok vm' tr ()) :
    addr < vm.size ∧
    ∃ vmm tr0,
      (((ptLookup vm.page_table (addr / vm.page_size)).isSome = true ∧
        (addr / vm.page_size) ∈ vm.lru_queue ∧
        vmm = { vm with lru_queue :=
          vm.lru_queue.erase (addr / vm.page_size) ++ [addr / vm.page_size] }) ∨
       (∃ trm sw, vm.swap_in (addr / vm.page_size) = .ok vmm trm sw)) ∧
      vmm.read_fin (addr / vm.page_size) (addr % vm.page_size) tr0 = .ok vm' tr () := by
  unfold VirtualMemory.read at h
  split at h
  case isFalse => cases h
  case isTrue haddr =>
    dsimp only at h
    split at h
    case isTrue hres =>
      split at h
      case h_1 => cases h
      case h_2 q hdq =>
        unfold dequeRemove at hdq
        split at hdq
        case isFalse => cases hdq
        case isTrue hmem =>
          cases hdq
          exact ⟨haddr, _, _, .inl ⟨hres, hmem, rfl⟩, h⟩
    case isFalse hres =>
      split at h
      case h_1 => cases h
      case h_2 vmm trm sw hsi =>
        exact ⟨haddr, vmm, _, .inr ⟨trm, sw, hsi⟩, h⟩

/-- A completed `VirtualMemory.write`, analogously. -/
theorem vm_write_ok_char (vm vm' : VirtualMemory) (addr : Nat) (tr : List Ev)
    (h : vm.write addr = .ok vm' tr ()) :
    addr < vm.size ∧
    ∃ vmm tr0,
      (((ptLookup vm.page_table (addr / vm.page_size)).isSome = true ∧
        (addr / vm.page_size) ∈ vm.lru_queue ∧
        vmm = { vm with lru_queue :=
          vm.lru_queue.erase (addr / vm.page_size) ++ [addr / vm.page_size] }) ∨
       (∃ trm sw, vm.swap_in (addr / vm.page_size) = .ok vmm trm sw)) ∧
      vmm.write_fin (addr / vm.page_size) (addr % vm.page_size) tr0 = .ok vm' tr () := by
  unfold VirtualMemory.write at h
  split at h
  case isFalse => cases h
  case isTrue haddr =>
    dsimp only at h
    split at h
    case isTrue hres =>
      split at h
      case h_1 => cases h
      case h_2 q hdq =>
        unfold dequeRemove at hdq
        split at hdq
        case isFalse => cases hdq
        case isTrue hmem =>
          cases hdq
          exact ⟨haddr, _, _, .inl ⟨hres, hmem, rfl⟩, h⟩
    case isFalse hres =>
      split at h
      case h_1 => cases h
      case h_2 vmm trm sw hsi =>
        exact ⟨haddr, vmm, _, .inr ⟨trm, sw, hsi⟩, h⟩

theorem cache_read_ok_physical (c c' : SetAssocCache) (addr : Nat) (tr : List Ev)
    (h : c.read addr = .ok c' tr ()) : c'.physical = c.physical := by
  obtain ⟨_, hcase⟩ := read_ok_char c c' addr tr h
  rcases hcase with ⟨way, _, rfl, _⟩ | ⟨_, cm, trm, way, hsi, rfl, _⟩
  · rfl
  · exact (swap_in_ok_effect _ _ _ _ _ _ hsi).2.2.1

theorem cache_write_ok_physical (c c' : SetAssocCache) (addr : Nat) (tr : List Ev)
    (h : c.write addr = .ok c' tr ()) : c'.physical = c.physical := by
  obtain ⟨_, hcase⟩ := write_ok_char c c' addr tr h
  rcases hcase with ⟨way, _, rfl, _⟩ | ⟨_, cm, trm, way, hsi, rfl, _⟩
  · rfl
  · exact (swap_in_ok_effect _ _ _ _ _ _ hsi).2.2.1

theorem partition_main_mem (vm : VirtualMemory) (c' : SetAssocCache)
    (hphys : c'.physical = vm.main_mem.physical)
    (hRep : vm.Rep) (hFP : vm.FramePartition) :
    ({ vm with main_mem := c' } : VirtualMemory).Rep ∧
    ({ vm with main_mem := c' } : VirtualMemory).FramePartition := by
  have hnum : ({ vm with main_mem := c' } : VirtualMemory).numFrames = vm.numFrames := by
    unfold VirtualMemory.numFrames
    rw [hphys]
  refine ⟨hRep, hFP.1, hFP.2.1, ?_, ?_, ?_⟩
  · intro g hg
    rw [hnum]
    exact hFP.2.2.1 g hg
  · intro g hg
    rw [hnum]
    exact hFP.2.2.2.1 g hg
  · intro g hg
    rw [hnum] at hg
    exact hFP.2.2.2.2 g hg

theorem partition_lru_refresh (vm : VirtualMemory) (page : Nat)
    (hRep : vm.Rep) (hFP : vm.FramePartition) (hk : page ∈ vm.ptKeys) :
    ({ vm with lru_queue := vm.lru_queue.erase page ++ [page] } : VirtualMemory).Rep ∧
    ({ vm with lru_queue := vm.lru_queue.erase page ++ [page] } : VirtualMemory).FramePartition := by
  obtain ⟨hkND, hfsND, hlruND, hlruSub⟩ := hRep
  refine ⟨⟨hkND, hfsND, ?_, ?_⟩, hFP⟩
  · refine nodup_append_singleton (hlruND.erase page) ?_
    intro hc
    exact absurd ((hlruND.mem_erase_iff).mp hc).1 (fun hne => hne rfl)
  · intro p hp
    rcases List.mem_append.mp hp with hp | hp
    · exact hlruSub p (List.mem_of_mem_erase hp)
    · rcases List.mem_singleton.mp hp with rfl
      exact hk

theorem partition_dirty_update (vm : VirtualMemory) (page : Nat)
    (hRep : vm.Rep) (hFP : vm.FramePartition) :
    ({ vm with page_table :=
        ptUpdate vm.page_table page (fun p => { p with dirty := true }) } : VirtualMemory).Rep ∧
    ({ vm with page_table :=
        ptUpdate vm.page_table page (fun p => { p with dirty := true }) } : VirtualMemory).FramePartition := by
  obtain ⟨hkND, hfsND, hlruND, hlruSub⟩ := hRep
  obtain ⟨hmND, hdisj, hmB, hfB, hcov⟩ := hFP
  have hkeys : (ptUpdate vm.page_table page (fun p => { p with dirty := true })).map
      (fun p => p.1) = vm.page_table.map (fun p => p.1) := ptUpdate_keys _ _ _
  have hmap : (ptUpdate vm.page_table page (fun p => { p with dirty := true })).map
      (fun p => p.2.physical) = vm.page_table.map (fun p => p.2.physical) :=
    ptUpdate_mapped_of_physical _ _ _ (fun pg => rfl)
  refine ⟨⟨?_, hfsND, hlruND, ?_⟩, ⟨?_, ?_, ?_, ?_, ?_⟩⟩
  · unfold VirtualMemory.ptKeys
    rw [hkeys]
    exact hkND
  · intro p hp
    unfold VirtualMemory.ptKeys
    rw [hkeys]
    exact hlruSub p hp
  · unfold VirtualMemory.mappedFrames
    rw [hmap]
    exact hmND
  · intro g hg
    unfold VirtualMemory.mappedFrames at hg
    rw [hmap] at hg
    exact hdisj g hg
  · intro g hg
    unfold VirtualMemory.mappedFrames at hg
    rw [hmap] at hg
    exact hmB g hg
  · exact hfB
  · intro g hg
    unfold VirtualMemory.mappedFrames
    rw [hmap]
    exact hcov g hg

/-- Invariant preservation along `randomize_page_table`'s loop: starting from a
state whose page-table keys and LRU members are all below the running page
counter, seating each sampled frame preserves the representation and partition
invariants. -/
theorem randLoop_partition (sample : List Nat) (vm : VirtualMemory) (page : Nat)
    (hRep : vm.Rep) (hFP : vm.FramePartition) (hnd : sample.Nodup)
    (hsub : ∀ f ∈ sample, f ∈ vm.frame_set)
    (hkeys : ∀ k ∈ vm.ptKeys, k < page) (hlru : ∀ k ∈ vm.lru_queue, k < page) :
    ∀ vm' tr, vm.randLoop page sample = .ok vm' tr () →
      vm'.Rep ∧ vm'.FramePartition := by
  induction sample generalizing vm page with
  | nil =>
    intro vm' tr h
    unfold VirtualMemory.randLoop at h
    cases h
    exact ⟨hRep, hFP⟩
  | cons frame rest ih =>
    intro vm' tr h
    obtain ⟨hkND, hfsND, hlruND, hlruSub⟩ := hRep
    obtain ⟨hmND, hdisj, hmB, hfB, hcov⟩ := hFP
    have hpk : page ∉ vm.ptKeys := fun hc => Nat.lt_irrefl page (hkeys page hc)
    have hlkn : (ptLookup vm.page_table page).isSome = false := by
      cases hlk : ptLookup vm.page_table page with
      | none => rfl
      | some pg =>
        exact absurd (ptLookup_isSome_mem_keys _ _ (by rw [hlk]; rfl)) hpk
    have hfmem : frame ∈ vm.frame_set := hsub frame (List.mem_cons_self _ _)
    unfold VirtualMemory.randLoop at h
    dsimp only at h
    simp only [hlkn, Bool.false_eq_true, if_false] at h
    rw [if_pos hfmem] at h
    rw [List.nodup_cons] at hnd
    have hfnm : frame ∉ vm.mappedFrames := fun hc => hdisj frame hc hfmem
    set vmn : VirtualMemory :=
      { vm with page_table := vm.page_table ++ [(page, ({ physical := frame, dirty := false } : VirtualMemory.Page))],
                frame_set := vm.frame_set.erase frame,
                lru_queue := vm.lru_queue ++ [page] } with hvmn
    have hnum : vmn.numFrames = vm.numFrames := rfl
    refine ih vmn (page + 1) ⟨?_, ?_, ?_, ?_⟩ ⟨?_, ?_, ?_, ?_, ?_⟩ hnd.2 ?_ ?_ ?_ vm' tr h
    · show ((vm.page_table ++ [(page, ({ physical := frame, dirty := false } : VirtualMemory.Page))]).map
        (fun p => p.1)).Nodup
      rw [List.map_append]
      exact nodup_append_singleton hkND hpk
    · exact hfsND.erase frame
    · refine nodup_append_singleton hlruND ?_
      intro hc
      exact Nat.lt_irrefl page (hlru page hc)
    · intro p hp
      show p ∈ (vm.page_table ++ [(page, ({ physical := frame, dirty := false } : VirtualMemory.Page))]).map
        (fun q => q.1)
      rw [List.map_append]
      rcases List.mem_append.mp hp with hp | hp
      · exact List.mem_append.mpr (.inl (hlruSub p hp))
      · exact List.mem_append.mpr (.inr (by simpa using hp))
    · show ((vm.page_table ++ [(page, ({ physical := frame, dirty := false } : VirtualMemory.Page))]).map
        (fun p => p.2.physical)).Nodup
      rw [List.map_append]
      exact nodup_append_singleton hmND hfnm
    · intro g hg hc
      show False
      rw [show vmn.mappedFrames = (vm.page_table ++
        [(page, ({ physical := frame, dirty := false } : VirtualMemory.Page))]).map (fun p => p.2.physical) from rfl,
        List.map_append] at hg
      rcases List.mem_append.mp hg with hg | hg
      · exact hdisj g hg (List.mem_of_mem_erase hc)
      · have hgf : g = frame := by simpa using hg
        rw [hgf] at hc
        exact absurd ((hfsND.mem_erase_iff).mp hc).1 (fun hne => hne rfl)
    · intro g hg
      rw [show vmn.mappedFrames = (vm.page_table ++
        [(page, ({ physical := frame, dirty := false } : VirtualMemory.Page))]).map (fun p => p.2.physical) from rfl,
        List.map_append] at hg
      rw [hnum]
      rcases List.mem_append.mp hg with hg | hg
      · exact hmB g hg
      · have hgf : g = frame := by simpa using hg
        rw [hgf]
        exact hfB frame hfmem
    · intro g hg
      rw [hnum]
      exact hfB g (List.mem_of_mem_erase hg)
    · intro g hg
      rw [hnum] at hg
      rw [show vmn.mappedFrames = (vm.page_table ++
        [(page, ({ physical := frame, dirty := false } : VirtualMemory.Page))]).map (fun p => p.2.physical) from rfl,
        List.map_append]
      rcases hcov g hg with hc | hc
      · exact .inl (List.mem_append.mpr (.inl hc))
      · by_cases hgf : g = frame
        · exact .inl (List.mem_append.mpr (.inr (by simp [hgf])))
        · exact .inr ((List.mem_erase_of_ne hgf).mpr hc)
    · intro f hf
      have hfr : f ∈ vm.frame_set := hsub f (List.mem_cons_of_mem frame hf)
      have hne : f ≠ frame := fun e => hnd.1 (e ▸ hf)
      exact (List.mem_erase_of_ne hne).mpr hfr
    · intro k hk
      rw [show vmn.ptKeys = (vm.page_table ++
        [(page, ({ physical := frame, dirty := false } : VirtualMemory.Page))]).map (fun q => q.1) from rfl,
        List.map_append] at hk
      rcases List.mem_append.mp hk with hk | hk
      · exact Nat.lt_succ_of_lt (hkeys k hk)
      · have hkp : k = page := by simpa using hk
        rw [hkp]
        exact Nat.lt_succ_self page
    · intro k hk
      rcases List.mem_append.mp hk with hk | hk
      · exact Nat.lt_succ_of_lt (hlru k hk)
      · have hkp : k = page := by simpa using hk
        rw [hkp]
        exact Nat.lt_succ_self page

theorem vm_build_partition (mm : SetAssocCache) (sz psz : Nat) (vm : VirtualMemory)
    (h : VirtualMemory.build mm sz psz = .ok vm) : vm.Rep ∧ vm.FramePartition := by
  unfold VirtualMemory.build at h
  split at h
  case isFalse => cases h
  case isTrue hsz =>
    cases h
    refine ⟨⟨List.nodup_nil, List.nodup_range _, List.nodup_nil,
             fun p hp => absurd hp (List.not_mem_nil p)⟩,
            List.nodup_nil,
            fun f hf => absurd hf (List.not_mem_nil f),
            fun f hf => absurd hf (List.not_mem_nil f),
            fun f hf => List.mem_range.mp hf,
            fun f hf => .inr (List.mem_range.mpr hf)⟩

theorem vm_read_partition (vm vm' : VirtualMemory) (addr : Nat) (tr : List Ev)
    (hRep : vm.Rep) (hFP : vm.FramePartition) (h : vm.read addr = .ok vm' tr ()) :
    vm'.Rep ∧ vm'.FramePartition := by
  obtain ⟨-, vmm, tr0, hmid, hfin⟩ := vm_read_ok_char _ _ _ _ h
  have hm : vmm.Rep ∧ vmm.FramePartition := by
    rcases hmid with ⟨hsome, hmemq, rfl⟩ | ⟨trm, sw, hsi⟩
    · exact partition_lru_refresh vm _ hRep hFP (ptLookup_isSome_mem_keys _ _ hsome)
    · have hsw := vm_swap_in_partition _ _ _ _ _ hRep hFP hsi
      exact ⟨hsw.1, hsw.2.1⟩
  obtain ⟨line, c', trc, hlk, hrd, rfl, -⟩ := read_fin_ok_char _ _ _ _ _ _ hfin
  exact partition_main_mem vmm c' (cache_read_ok_physical _ _ _ _ hrd) hm.1 hm.2

theorem vm_write_partition (vm vm' : VirtualMemory) (addr : Nat) (tr : List Ev)
    (hRep : vm.Rep) (hFP : vm.FramePartition) (h : vm.write addr = .ok vm' tr ()) :
    vm'.Rep ∧ vm'.FramePartition := by
  obtain ⟨-, vmm, tr0, hmid, hfin⟩ := vm_write_ok_char _ _ _ _ h
  have hm : vmm.Rep ∧ vmm.FramePartition := by
    rcases hmid with ⟨hsome, hmemq, rfl⟩ | ⟨trm, sw, hsi⟩
    · exact partition_lru_refresh vm _ hRep hFP (ptLookup_isSome_mem_keys _ _ hsome)
    · have hsw := vm_swap_in_partition _ _ _ _ _ hRep hFP hsi
      exact ⟨hsw.1, hsw.2.1⟩
  obtain ⟨line, c', trc, hlk, hwr, rfl, -⟩ := write_fin_ok_char _ _ _ _ _ _ hfin
  have hd := partition_dirty_update vmm (addr / vm.page_size) hm.1 hm.2
  exact partition_main_mem
    ({ vmm with page_table :=
        ptUpdate vmm.page_table (addr / vm.page_size) (fun p => { p with dirty := true }) }) c'
    (cache_write_ok_physical _ _ _ _ hwr) hd.1 hd.2

theorem vm_randomize_partition (vm vm' : VirtualMemory) (sample : List Nat) (tr : List Ev)
    (hRep : vm.Rep) (hFP : vm.FramePartition)
    (hpt : vm.page_table = []) (hlq : vm.lru_queue = [])
    (hnd : sample.Nodup) (hsub : ∀ f ∈ sample, f ∈ vm.frame_set)
    (h : vm.randomize_page_table sample = .ok vm' tr ()) :
    vm'.Rep ∧ vm'.FramePartition := by
  refine randLoop_partition sample vm 0 hRep hFP hnd hsub ?_ ?_ vm' tr h
  · intro k hk
    rw [show vm.ptKeys = vm.page_table.map (fun p => p.1) from rfl, hpt] at hk
    exact absurd hk (List.not_mem_nil k)
  · intro k hk
    rw [hlq] at hk
    exact absurd hk (List.not_mem_nil k)

/-- C5. Frame-pool partition invariant: after construction
(`VirtualMemory.build`) and after every completed `VirtualMemory.read`,
`VirtualMemory.write` or `VirtualMemory.randomize_page_table` (the latter from
a fresh instance: empty page table and LRU queue, with a duplicate-free sample
drawn from the free-frame set, as `random.sample` guarantees), the frames
mapped by page-table entries are pairwise distinct and disjoint from the
free-frame set, and together mapped and free frames cover exactly the frame
range `{0, ..., physical_size / page_size - 1}` (`FramePartition`); `Rep` is
the bookkeeping invariant (unique keys, duplicate-free frame set and LRU queue
of resident pages) that `build` establishes and the operations carry along. -/
theorem c5_frame_pool_partition :
    (∀ (mm : SetAssocCache) (sz psz : Nat) (vm : VirtualMemory),
       VirtualMemory.build mm sz psz = .ok vm → vm.Rep ∧ vm.FramePartition) ∧
    (∀ (vm vm' : VirtualMemory) (addr : Nat) (tr : List Ev),
       vm.Rep → vm.FramePartition → vm.read addr = .ok vm' tr () →
       vm'.Rep ∧ vm'.FramePartition) ∧
    (∀ (vm vm' : VirtualMemory) (addr : Nat) (tr : List Ev),
       vm.Rep → vm.FramePartition → vm.write addr = .ok vm' tr () →
       vm'.Rep ∧ vm'.FramePartition) ∧
    (∀ (vm vm' : VirtualMemory) (sample : List Nat) (tr : List Ev),
       vm.Rep → vm.FramePartition → vm.page_table = [] → vm.lru_queue = [] →
       sample.Nodup → (∀ f ∈ sample, f ∈ vm.frame_set) →
       vm.randomize_page_table sample = .ok vm' tr () →
       vm'.Rep ∧ vm'.FramePartition) :=
  ⟨fun mm sz psz vm h => vm_build_partition mm sz psz vm h,
   fun vm vm' addr tr h1 h2 h3 => vm_read_partition vm vm' addr tr h1 h2 h3,
   fun vm vm' addr tr h1 h2 h3 => vm_write_partition vm vm' addr tr h1 h2 h3,
   fun vm vm' sample tr h1 h2 h3 h4 h5 h6 h7 =>
     vm_randomize_partition vm vm' sample tr h1 h2 h3 h4 h5 h6 h7⟩

/-- Witness for C5: the construction part applied to the small configuration
(`cache0`, 64-byte virtual space, 16-byte pages, giving `vm0`), the read part
to `vm0.read 0` (page fault on page 0), the write part to `vm0.write 20` (page
fault on page 1), and the randomize part to the fresh `vm0` with sample
`[1, 0]`. -/
theorem c5_witness :
    (vm0.Rep ∧ vm0.FramePartition) ∧
    ((vm0.read 0).stateOf.Rep ∧ (vm0.read 0).stateOf.FramePartition) ∧
    ((vm0.write 20).stateOf.Rep ∧ (vm0.write 20).stateOf.FramePartition) ∧
    ((vm0.randomize_page_table [1, 0]).stateOf.Rep ∧
     (vm0.randomize_page_table [1, 0]).stateOf.FramePartition) :=
  ⟨c5_frame_pool_partition.1 cache0 64 16 vm0 rfl,
   c5_frame_pool_partition.2.1 vm0 _ 0 _ (by decide) (by decide) rfl,
   c5_frame_pool_partition.2.2.1 vm0 _ 20 _ (by decide) (by decide) rfl,
   c5_frame_pool_partition.2.2.2 vm0 _ [1, 0] _ (by decide) (by decide) rfl rfl
     (by decide) (by decide) rfl⟩

/-- No valid line of the set addressed by `a` carries `a`'s tag: the cache
holds no copy of address `a`. -/
def SetAssocCache.deadAddr (c : SetAssocCache) (a : Nat) : Prop :=
  ∀ w, w < (c.data.getD (c.idxOf a) []).length →
    ¬((c.lineAt (c.idxOf a) w).valid = true ∧ (c.lineAt (c.idxOf a) w).tag = c.tagOf a)

theorem deadAddr_of_weakens {c' c : SetAssocCache} (hw : c'.Weakens c) (a : Nat)
    (hd : c.deadAddr a) : c'.deadAddr a := by
  obtain ⟨hp, hs, ha, hb, hlen, hslen, hlines⟩ := hw
  have hidx : c'.idxOf a = c.idxOf a := by
    unfold SetAssocCache.idxOf SetAssocCache.transpSize
    rw [hs, ha, hb]
  have htag : c'.tagOf a = c.tagOf a := by
    unfold SetAssocCache.tagOf SetAssocCache.transpSize
    rw [hs, ha]
  intro w hwl hcon
  obtain ⟨hv, ht⟩ := hcon
  rw [hidx] at hwl hv ht
  rw [htag] at ht
  rw [hslen] at hwl
  refine hd w hwl ⟨(hlines (c.idxOf a) w).1 hv, ?_⟩
  rw [← (hlines (c.idxOf a) w).2]
  exact ht

theorem invalStep_kills (c c1 : SetAssocCache) (a : Nat) (tr : List Ev)
    (hTU : c.tagsUnique) (h : c.invalStep a = .ok c1 tr ()) : c1.deadAddr a := by
  unfold SetAssocCache.invalStep at h
  dsimp only at h
  split at h
  case h_1 way hfind =>
    obtain ⟨hidx, hway, hval, hc1, -⟩ := swap_out_ok_char _ _ _ _ _ h
    subst hc1
    have hwlt : way < (c.data.getD (c.idxOf a) []).length := firstIdx?_some_lt _ _ _ hfind
    have hpred := firstIdx?_some_pred _ _ way default hfind
    simp only [Bool.and_eq_true, beq_iff_eq] at hpred
    intro w hwl hcon
    obtain ⟨hv, ht⟩ := hcon
    have hidx' : (c.modLine (c.idxOf a) way (fun l => { l with valid := false })).idxOf a
        = c.idxOf a := rfl
    have htag' : (c.modLine (c.idxOf a) way (fun l => { l with valid := false })).tagOf a
        = c.tagOf a := rfl
    rw [hidx'] at hwl hv ht
    rw [htag'] at ht
    rw [modLine_set_len] at hwl
    by_cases hww : w = way
    · subst hww
      rw [modLine_lineAt_self c _ _ _ hidx hwlt] at hv
      simp at hv
    · rw [modLine_lineAt_other c _ _ _ _ hww] at hv ht
      refine absurd ?_ (hTU (c.idxOf a) hidx w hwl way hwlt hww hv hpred.1)
      rw [ht]
      exact hpred.2.symm
  case h_2 hfind =>
    cases h
    intro w hwl hcon
    obtain ⟨hv, ht⟩ := hcon
    have hmem := getD_mem (c.data.getD (c.idxOf a) []) w default hwl
    have hp := firstIdx?_none _ _ hfind _ hmem
    simp only at hp
    have hl : c.lineAt (c.idxOf a) w = (c.data.getD (c.idxOf a) []).getD w default := rfl
    rw [← hl] at hp
    rw [hv, ht] at hp
    simp at hp

theorem invalLoop_kills (addrs : List Nat) (c c' : SetAssocCache) (tr : List Ev)
    (hTU : c.tagsUnique) (h : c.invalLoop addrs = .ok c' tr ()) :
    ∀ a ∈ addrs, c'.deadAddr a := by
  induction addrs generalizing c tr with
  | nil => intro a ha; exact absurd ha (List.not_mem_nil a)
  | cons b rest ih =>
    unfold SetAssocCache.invalLoop at h
    split at h
    case h_1 c1 tr1 u hstep =>
      split at h
      case h_1 c2 tr2 u2 hloop =>
        cases h
        intro a ha
        rcases List.mem_cons.mp ha with rfl | ha
        · exact deadAddr_of_weakens (invalLoop_ok_weakens _ _ _ _ hloop) a
            (invalStep_kills _ _ _ _ hTU hstep)
        · exact ih c1 tr2
            (tagsUnique_of_weakens (invalStep_ok_weakens _ _ _ _ hstep) hTU) hloop a ha
      case h_2 => cases h
    case h_2 => cases h

theorem weakens_WF {c' c : SetAssocCache} (hw : c'.Weakens c) (hWF : c.WF) : c'.WF := by
  obtain ⟨hp, hs, ha, hb, hlen, hslen, -⟩ := hw
  obtain ⟨h1, h2, h3, h4, h5, h6⟩ := hWF
  refine ⟨by rw [hb]; exact h1, by rw [ha]; exact h2, by rw [hb, hp, h3],
          by rw [hs, ha, hb]; exact h4, by rw [hlen, hs, ha, hb]; exact h5, ?_⟩
  intro t ht
  obtain ⟨i, hi, rfl⟩ := List.mem_iff_getElem.mp ht
  have hgd : c'.data.getD i [] = c'.data[i] := List.getD_eq_getElem c'.data [] hi
  rw [← hgd, hslen i, ha]
  have hi' : i < c.data.length := by rw [← hlen]; exact hi
  rw [List.getD_eq_getElem c.data [] hi']
  exact h6 _ (List.getElem_mem hi')

theorem transpSize_eq (c : SetAssocCache) (hWF : c.WF) :
    c.transpSize = c.blockSize * c.data.length := by
  obtain ⟨hbs, has, -, hmod, hlen, -⟩ := hWF
  obtain ⟨k, hk⟩ := Nat.dvd_of_mod_eq_zero hmod
  have h1 : c.associativity * c.blockSize * k / c.associativity = c.blockSize * k := by
    rw [Nat.mul_assoc]
    exact Nat.mul_div_cancel_left _ has
  have h2 : c.associativity * c.blockSize * k / (c.associativity * c.blockSize) = k :=
    Nat.mul_div_cancel_left _ (Nat.mul_pos has hbs)
  unfold SetAssocCache.transpSize
  rw [hlen, hk, h1, h2]

theorem tagOf_div (c : SetAssocCache) (hWF : c.WF) (a : Nat) :
    c.tagOf a = a / c.blockSize / c.data.length := by
  unfold SetAssocCache.tagOf
  rw [transpSize_eq c hWF, ← Nat.div_div_eq_div_mul]

theorem idxOf_mod (c : SetAssocCache) (hWF : c.WF) (a : Nat) :
    c.idxOf a = a / c.blockSize % c.data.length := by
  have hbs : 0 < c.blockSize := hWF.1
  unfold SetAssocCache.idxOf
  rw [transpSize_eq c hWF, Nat.mod_mul, Nat.add_mul_div_left _ _ hbs,
      Nat.div_eq_of_lt (Nat.mod_lt a hbs), Nat.zero_add]

theorem deadAddr_blockStart {c : SetAssocCache} (hWF : c.WF) (a : Nat)
    (hd : c.deadAddr (c.blockSize * (a / c.blockSize))) : c.deadAddr a := by
  have hi : c.idxOf (c.blockSize * (a / c.blockSize)) = c.idxOf a := by
    rw [idxOf_mod c hWF, idxOf_mod c hWF, Nat.mul_div_cancel_left _ hWF.1]
  have ht : c.tagOf (c.blockSize * (a / c.blockSize)) = c.tagOf a := by
    rw [tagOf_div c hWF, tagOf_div c hWF, Nat.mul_div_cancel_left _ hWF.1]
  unfold SetAssocCache.deadAddr at hd ⊢
  rw [hi, ht] at hd
  exact hd

theorem mem_pyRange_of (start stop step x : Nat) (hstep : 0 < step)
    (hx : ∃ i, x = start + step * i) (hlt : x < stop) :
    x ∈ pyRange start stop step := by
  obtain ⟨i, rfl⟩ := hx
  unfold pyRange
  rw [List.mem_range']
  refine ⟨i, ?_, rfl⟩
  have h1 : (i + 1) * step = i * step + step := by ring
  have hcomm : step * i = i * step := Nat.mul_comm _ _
  rw [Nat.lt_iff_add_one_le, Nat.le_div_iff_mul_le hstep]
  omega

theorem invalidate_kills (c c' : SetAssocCache) (s e : Nat) (tr : List Ev)
    (hWF : c.WF) (hTU : c.tagsUnique) (h : c.invalidate s e = .ok c' tr ())
    (a : Nat) (hs : s ≤ a) (he : a < e) : c'.deadAddr a := by
  have hbs : 0 < c.blockSize := hWF.1
  have hw' : c'.Weakens c := invalidate_ok_weakens _ _ _ _ _ h
  have hWF' : c'.WF := weakens_WF hw' hWF
  unfold SetAssocCache.invalidate at h
  have hble : c.blockSize * (a / c.blockSize) ≤ a := by
    rw [Nat.mul_comm]
    exact Nat.div_mul_le_self a c.blockSize
  have hmem : c.blockSize * (a / c.blockSize)
      ∈ pyRange (s - s % c.blockSize) e c.blockSize := by
    apply mem_pyRange_of _ _ _ _ hbs
    · have hdiv : s / c.blockSize ≤ a / c.blockSize := Nat.div_le_div_right hs
      refine ⟨a / c.blockSize - s / c.blockSize, ?_⟩
      have h2 : c.blockSize * (s / c.blockSize) + s % c.blockSize = s :=
        Nat.div_add_mod s c.blockSize
      have h3 : c.blockSize * (a / c.blockSize)
          = c.blockSize * (s / c.blockSize)
            + c.blockSize * (a / c.blockSize - s / c.blockSize) := by
        rw [← Nat.mul_add, Nat.add_sub_cancel' hdiv]
      omega
    · omega
  have hkill := invalLoop_kills _ _ _ _ hTU h _ hmem
  have hbseq : c'.blockSize = c.blockSize := hw'.2.2.2.1
  exact deadAddr_blockStart hWF' a (by rw [hbseq]; exact hkill)

theorem swap_out_trace_no_vmwb (c c' : SetAssocCache) (idx way : Nat) (tr : List Ev)
    (h : c.swap_out idx way = .ok c' tr ()) (p : Nat) :
    Ev.vmWriteBackToSecondary p ∉ tr := by
  obtain ⟨-, -, -, -, htr⟩ := swap_out_ok_char _ _ _ _ _ h
  subst htr
  split
  · intro hc
    rcases List.mem_cons.mp hc with h1 | h1
    · exact Ev.noConfusion h1
    · exact Ev.noConfusion (List.mem_singleton.mp h1)
  · intro hc
    exact Ev.noConfusion (List.mem_singleton.mp hc)

theorem invalStep_trace_no_vmwb (c c1 : SetAssocCache) (a : Nat) (tr : List Ev)
    (h : c.invalStep a = .ok c1 tr ()) (p : Nat) : Ev.vmWriteBackToSecondary p ∉ tr := by
  unfold SetAssocCache.invalStep at h
  dsimp only at h
  split at h
  case h_1 way hfind => exact swap_out_trace_no_vmwb _ _ _ _ _ h p
  case h_2 hfind =>
    cases h
    exact List.not_mem_nil _

theorem invalLoop_trace_no_vmwb (addrs : List Nat) (c c' : SetAssocCache) (tr : List Ev)
    (h : c.invalLoop addrs = .ok c' tr ()) (p : Nat) : Ev.vmWriteBackToSecondary p ∉ tr := by
  induction addrs generalizing c tr with
  | nil =>
    unfold SetAssocCache.invalLoop at h
    cases h
    exact List.not_mem_nil _
  | cons b rest ih =>
    unfold SetAssocCache.invalLoop at h
    split at h
    case h_1 c1 tr1 u hstep =>
      split at h
      case h_1 c2 tr2 u2 hloop =>
        cases h
        intro hc
        rcases List.mem_append.mp hc with hc | hc
        · exact invalStep_trace_no_vmwb _ _ _ _ hstep p hc
        · exact ih c1 tr2 hloop hc
      case h_2 => cases h
    case h_2 => cases h

theorem invalidate_trace_no_vmwb (c c' : SetAssocCache) (s e : Nat) (tr : List Ev)
    (h : c.invalidate s e = .ok c' tr ()) (p : Nat) : Ev.vmWriteBackToSecondary p ∉ tr := by
  unfold SetAssocCache.invalidate at h
  exact invalLoop_trace_no_vmwb _ _ _ _ h p

theorem vm_swap_out_kills (vm vm' : VirtualMemory) (v : Nat) (tr : List Ev)
    (hWF : vm.main_mem.WF) (hTU : vm.main_mem.tagsUnique)
    (h : vm.swap_out v = .ok vm' tr ()) :
    ∃ entry, ptLookup vm.page_table v = some entry ∧
      (∀ a, entry.physical * vm.page_size ≤ a → a < (entry.physical + 1) * vm.page_size →
        vm'.main_mem.deadAddr a) ∧
      entry.physical ∈ vm'.frame_set ∧
      (Ev.vmWriteBackToSecondary v ∈ tr ↔ entry.dirty = true) := by
  obtain ⟨hv, line, trI, hlk, hinv, hpt, hfs, hmemq, hlru, hsz, hps, htr⟩ :=
    vm_swap_out_ok_char _ _ _ _ h
  refine ⟨line, hlk, ?_, ?_, ?_⟩
  · intro a ha1 ha2
    exact invalidate_kills _ _ _ _ _ hWF hTU hinv a ha1 ha2
  · rw [hfs]
    split
    · assumption
    · exact List.mem_append.mpr (.inr (List.mem_singleton.mpr rfl))
  · subst htr
    constructor
    · intro hmem
      rcases List.mem_append.mp hmem with hmem | hmem
      · rcases List.mem_append.mp hmem with hmem | hmem
        · exact Ev.noConfusion (List.mem_singleton.mp hmem)
        · exact absurd hmem (invalidate_trace_no_vmwb _ _ _ _ _ hinv v)
      · by_cases hd : line.dirty = true
        · exact hd
        · rw [if_neg hd] at hmem
          exact absurd hmem (List.not_mem_nil _)
    · intro hd
      refine List.mem_append.mpr (.inr ?_)
      rw [if_pos hd]
      exact List.mem_singleton.mpr rfl

theorem vm_swap_in_evict_kills (vm vm' : VirtualMemory) (page victim : Nat) (tr : List Ev)
    (hRep : vm.Rep) (hWF : vm.main_mem.WF) (hTU : vm.main_mem.tagsUnique)
    (h : vm.swap_in page = .ok vm' tr (some victim)) :
    vm.frame_set = [] ∧ vm.lru_queue.head? = some victim ∧
    ∃ entry, ptLookup vm.page_table victim = some entry ∧
      (∀ a, entry.physical * vm.page_size ≤ a → a < (entry.physical + 1) * vm.page_size →
        vm'.main_mem.deadAddr a) ∧
      (Ev.vmWriteBackToSecondary victim ∈ tr ↔ entry.dirty = true) := by
  obtain ⟨hp, hlkn, hcase⟩ := vm_swap_in_ok_char _ _ _ _ _ h
  rcases hcase with ⟨f, rest, hsw, -, -, -, -, -, -, -, -⟩ |
    ⟨victim', vm2, tr2, f, rest, hfs0, hhead, hsw, hso, hfs2, hpt, hfs', hlru', hmm,
     hsz2, hps2, htr⟩
  · exact Option.noConfusion hsw
  · injection hsw with hveq
    subst hveq
    refine ⟨hfs0, hhead, ?_⟩
    have hvk : victim ∈ vm.ptKeys := hRep.2.2.2 victim (mem_of_head? hhead)
    obtain ⟨entry, hentry⟩ := ptLookup_of_mem_keys _ _ hvk
    have hentry1 : ptLookup (vm.page_table ++
        [(page, ({ physical := 0, dirty := false } : VirtualMemory.Page))]) victim
        = some entry := ptLookup_append_of_some _ _ _ _ hentry
    obtain ⟨entry', hlk', hdead, hmemfs, hiff⟩ :=
      vm_swap_out_kills { vm with page_table := vm.page_table ++
        [(page, ({ physical := 0, dirty := false } : VirtualMemory.Page))] } vm2 victim tr2
        hWF hTU hso
    have he : entry' = entry := by
      rw [hlk'] at hentry1
      injection hentry1
    subst he
    refine ⟨entry', hentry, ?_, ?_⟩
    · intro a h1 h2
      rw [hmm]
      exact hdead a h1 h2
    · rw [htr]
      constructor
      · intro hmem
        rcases List.mem_append.mp hmem with hmem | hmem
        · rcases List.mem_append.mp hmem with hmem | hmem
          · exact Ev.noConfusion (List.mem_singleton.mp hmem)
          · exact hiff.mp hmem
        · exact Ev.noConfusion (List.mem_singleton.mp hmem)
      · intro hd
        exact List.mem_append.mpr (.inl (List.mem_append.mpr (.inr (hiff.mpr hd))))

/-- C6. Page eviction consistency and write-back. First conjunct, on the
eviction primitive `VirtualMemory.swap_out` (whose first action is the cache
invalidation over the page's frame range, before the frame is added back to
the free pool): after a completed eviction of page `v` there is a page-table
entry for `v` whose frame no valid cache line still references (no valid line
of the addressed set carries the tag of any address in
`[frame * page_size, (frame + 1) * page_size)`), that frame is in the free
pool, and the secondary-storage write-back trace event for `v` was emitted iff
the entry was dirty. Second conjunct, on `VirtualMemory.swap_in` whenever it
actually evicts (returns `some victim`): the free-frame pool was empty, the
victim is the head of the page LRU queue, and the same no-stale-cache-line and
write-back-iff-dirty conclusions hold for the victim's entry in the final
state. Both need the cache geometry invariant `WF` and the tag-uniqueness
invariant (claim C8) of the main-memory cache. -/
theorem c6_page_eviction_writeback :
    (∀ (vm vm' : VirtualMemory) (v : Nat) (tr : List Ev),
       vm.main_mem.WF → vm.main_mem.tagsUnique → vm.swap_out v = .ok vm' tr () →
       ∃ entry, ptLookup vm.page_table v = some entry ∧
         (∀ a, entry.physical * vm.page_size ≤ a →
           a < (entry.physical + 1) * vm.page_size → vm'.main_mem.deadAddr a) ∧
         entry.physical ∈ vm'.frame_set ∧
         (Ev.vmWriteBackToSecondary v ∈ tr ↔ entry.dirty = true)) ∧
    (∀ (vm vm' : VirtualMemory) (page victim : Nat) (tr : List Ev),
       vm.Rep → vm.main_mem.WF → vm.main_mem.tagsUnique →
       vm.swap_in page = .ok vm' tr (some victim) →
       vm.frame_set = [] ∧ vm.lru_queue.head? = some victim ∧
       ∃ entry, ptLookup vm.page_table victim = some entry ∧
         (∀ a, entry.physical * vm.page_size ≤ a →
           a < (entry.physical + 1) * vm.page_size → vm'.main_mem.deadAddr a) ∧
         (Ev.vmWriteBackToSecondary victim ∈ tr ↔ entry.dirty = true)) :=
  ⟨fun vm vm' v tr h1 h2 h3 => vm_swap_out_kills vm vm' v tr h1 h2 h3,
   fun vm vm' page victim tr h1 h2 h3 h4 =>
     vm_swap_in_evict_kills vm vm' page victim tr h1 h2 h3 h4⟩

/-- State with both frames occupied (pages 0 and 1 resident, LRU order
[0, 1], empty free pool) reached by two completed VM-level reads. -/
def vmB : VirtualMemory := ((vm0.read 0).stateOf.read 16).stateOf

/-- Witness for C6: the `swap_out` part applied to the eviction of resident
page 1 of `vmB`, the `swap_in` part to `vmB.swap_in 2`, which must evict the
LRU victim page 0. -/
theorem c6_witness :
    (∃ entry, ptLookup vmB.page_table 1 = some entry ∧
      (∀ a, entry.physical * vmB.page_size ≤ a →
        a < (entry.physical + 1) * vmB.page_size →
        (vmB.swap_out 1).stateOf.main_mem.deadAddr a) ∧
      entry.physical ∈ (vmB.swap_out 1).stateOf.frame_set ∧
      (Ev.vmWriteBackToSecondary 1 ∈ (vmB.swap_out 1).traceOf ↔ entry.dirty = true)) ∧
    (vmB.frame_set = [] ∧ vmB.lru_queue.head? = some 0 ∧
     ∃ entry, ptLookup vmB.page_table 0 = some entry ∧
       (∀ a, entry.physical * vmB.page_size ≤ a →
         a < (entry.physical + 1) * vmB.page_size →
         (vmB.swap_in 2).stateOf.main_mem.deadAddr a) ∧
       (Ev.vmWriteBackToSecondary 0 ∈ (vmB.swap_in 2).traceOf ↔ entry.dirty = true)) :=
  ⟨c6_page_eviction_writeback.1 vmB _ 1 _ (by decide) (by decide) rfl,
   c6_page_eviction_writeback.2 vmB _ 2 0 _ (by decide) (by decide) (by decide) rfl⟩
